import Mathlib

/-!
Verification development for the math-assessment question generator.

The JavaScript sources are shallowly embedded here:

* `src/unnamed/part_000` — `evaluateJSExpression`, `tryParseIntegerDivision`,
  `formatNumberForDisplay`, `generateVariableValue`, `validateVariableValue`,
  `generateQuestionVariables`, `replaceTemplateVariables`,
  `evaluateMathExpression`, `gcd`, `approximateFraction`.
* `src/js/core/question-generator.js` — `processFormattedVariables`,
  `formatVariableValue`, `evaluateExpressionInTemplate`.
* `src/js/utils/question-utils.js` — `evaluateMathExpression` (math.js based).

Modelling conventions:

* JavaScript numbers are modelled exactly: a JS number is either a finite
  rational, `Infinity`, `-Infinity`, or `NaN` (`JSNum`).  IEEE-754 rounding is
  not modelled; every theorem below only exercises values on which double
  arithmetic is exact (small integers and dyadic rationals), and every
  floating-point-dependent subroutine (`Math.sqrt`-based radical detection,
  the transcendental helpers, math.js) is abstracted as a component of an
  environment record `Ext` over which the theorems quantify universally.
* `new Function(...)` evaluation of an expression string is modelled by an
  executable tokenizer, recursive-descent parser and interpreter for the
  JavaScript expression fragment the templates use: numeric literals,
  identifiers, unary `-`, binary `+ - * /`, bitwise `^` (XOR, the actual JS
  meaning of `^`), calls of the injected helper functions, and parentheses.
  JS constructs outside this fragment are mapped to syntax errors.
* JS objects with string keys are modelled as insertion-ordered association
  lists (`StrMap`); a property holding `undefined` is a `none` value.
-/

namespace Spec2Proof

/-! ## JavaScript numbers (exact fragment) -/

/-- A JavaScript number: finite (exact rational), `Infinity`, `-Infinity`, `NaN`. -/
inductive JSNum where
  | fin (q : ℚ)
  | inf
  | negInf
  | nan
deriving DecidableEq, Repr

namespace JSNum

/-- `Number.isNaN`. -/
def isNaN : JSNum → Bool
  | nan => true
  | _ => false

/-- `isFinite`. -/
def isFinite : JSNum → Bool
  | fin _ => true
  | _ => false

/-- `Number.isInteger`. -/
def isInteger : JSNum → Bool
  | fin q => q.den = 1
  | _ => false

/-- JS unary minus on numbers. -/
def negate : JSNum → JSNum
  | fin q => fin (-q)
  | inf => negInf
  | negInf => inf
  | nan => nan

/-- JS `+` on numbers. -/
def add : JSNum → JSNum → JSNum
  | nan, _ => nan
  | _, nan => nan
  | inf, negInf => nan
  | negInf, inf => nan
  | inf, _ => inf
  | _, inf => inf
  | negInf, _ => negInf
  | _, negInf => negInf
  | fin a, fin b => fin (a + b)

/-- JS binary `-` on numbers. -/
def sub (a b : JSNum) : JSNum := add a (negate b)

/-- JS `*` on numbers (signed zero is not modelled; the infinite cases follow
IEEE sign rules with `±∞ * 0 = NaN`). -/
def mul : JSNum → JSNum → JSNum
  | nan, _ => nan
  | _, nan => nan
  | inf, inf => inf
  | inf, negInf => negInf
  | negInf, inf => negInf
  | negInf, negInf => inf
  | inf, fin b => if b = 0 then nan else if 0 < b then inf else negInf
  | fin a, inf => if a = 0 then nan else if 0 < a then inf else negInf
  | negInf, fin b => if b = 0 then nan else if 0 < b then negInf else inf
  | fin a, negInf => if a = 0 then nan else if 0 < a then negInf else inf
  | fin a, fin b => fin (a * b)

/-- JS `/` on numbers: division by zero produces an infinity (or `NaN` for
`0/0`), exactly as in IEEE-754 with a positive zero divisor. -/
def div : JSNum → JSNum → JSNum
  | nan, _ => nan
  | _, nan => nan
  | inf, fin b => if 0 ≤ b then inf else negInf
  | negInf, fin b => if 0 ≤ b then negInf else inf
  | inf, _ => nan
  | negInf, _ => nan
  | fin _, inf => fin 0
  | fin _, negInf => fin 0
  | fin a, fin b =>
      if b = 0 then
        (if a = 0 then nan else if 0 < a then inf else negInf)
      else fin (a / b)

/-- Truncation toward zero (the integer step of `ToInt32`). -/
def trunc (q : ℚ) : ℤ := if 0 ≤ q then ⌊q⌋ else -⌊-q⌋

/-- `ToInt32` of a JS number, represented as the unsigned 32-bit pattern.
`NaN` and the infinities convert to `0`. -/
def toUInt32 : JSNum → ℕ
  | fin q => ((trunc q % 4294967296 + 4294967296) % 4294967296).toNat
  | _ => 0

/-- Reinterpret an unsigned 32-bit pattern as a signed JS number. -/
def ofInt32 (u : ℕ) : JSNum :=
  if u < 2147483648 then fin (u : ℚ) else fin (((u : ℤ) - 4294967296 : ℤ) : ℚ)

/-- JS `^` on numbers: bitwise XOR on the 32-bit integer conversions.  (This is
what the `^` character means to `new Function`; it is not exponentiation.) -/
def xor (a b : JSNum) : JSNum := ofInt32 (Nat.xor (toUInt32 a) (toUInt32 b))

end JSNum

/-- JS `===` on scope values (`none` = `undefined`).  `NaN === NaN` is false. -/
def strictEq : Option JSNum → Option JSNum → Bool
  | none, none => true
  | some (.fin a), some (.fin b) => a = b
  | some .inf, some .inf => true
  | some .negInf, some .negInf => true
  | _, _ => false

/-! ## String-keyed objects -/

/-- A JS object with string keys, as an insertion-ordered association list. -/
abbrev StrMap (α : Type) : Type := List (String × α)

namespace StrMap

def empty {α : Type} : StrMap α := []

/-- Property read (`obj[k]`), `none` when the key is absent. -/
def get? {α : Type} : StrMap α → String → Option α
  | [], _ => none
  | (k', v) :: t, k => if k' = k then some v else get? t k

/-- Property write (`obj[k] = v`): update in place, else append (JS insertion
order for non-index string keys). -/
def set {α : Type} : StrMap α → String → α → StrMap α
  | [], k, v => [(k, v)]
  | (k', v') :: t, k, v =>
      if k' = k then (k', v) :: t else (k', v') :: set t k v

/-- `Object.keys` (all keys here are enumerable unless removed explicitly). -/
def keys {α : Type} (m : StrMap α) : List String := m.map (·.1)

/-- Remove a key (used to model flipping a property to non-enumerable). -/
def eraseKey {α : Type} (m : StrMap α) (k : String) : StrMap α :=
  m.filter (fun p => p.1 ≠ k)

end StrMap

/-! Character-list implementations of the JS string primitives the sources
use (`trim`, `split`, `includes`, `startsWith`).  The Lean core `String`
versions are byte-position based and do not reduce inside kernel-checked
proofs, so the embedding works on `List Char` directly. -/

/-- The whitespace class used by JS `trim` / `\s` (ASCII fragment). -/
def isJsSpace (c : Char) : Bool := c = ' ' || c = '\t' || c = '\n' || c = '\r'

/-- JS `String.prototype.trim`. -/
def trimChars (s : List Char) : List Char :=
  ((s.dropWhile isJsSpace).reverse.dropWhile isJsSpace).reverse

/-- JS `String.prototype.split` at a one-character separator. -/
def splitOnChar (sep : Char) : List Char → List (List Char)
  | [] => [[]]
  | c :: t =>
      if c = sep then [] :: splitOnChar sep t
      else
        match splitOnChar sep t with
        | [] => [[c]]
        | g :: gs => (c :: g) :: gs

/-- `p` is a leading segment of the second list. -/
def charsLead : List Char → List Char → Bool
  | [], _ => true
  | _ :: _, [] => false
  | p :: ps, c :: cs => p = c && charsLead ps cs

/-- JS `String.prototype.includes`. -/
def charsHave (sub : List Char) : List Char → Bool
  | [] => sub.isEmpty
  | c :: t => charsLead sub (c :: t) || charsHave sub t

/-- The numeric scope: variable name → JS value (`none` = `undefined`). -/
abbrev Scope := StrMap (Option JSNum)

/-! ## The abstracted floating-point / external environment -/

/-- Result of a math.js `evaluate` call (`src/js/utils/question-utils.js`). -/
inductive MathJsResult where
  | number (n : JSNum)
  | other (s : String)

/-- Floating-point and external-library behaviour that the embedding abstracts:
the injected `Math.*` helper functions, the constants `Math.PI` / `Math.E`,
double→string printing of non-integers, the `Math.sqrt`-based radical detector
`detectSimplifiedRadical`, and the math.js evaluator used by
`question-utils.js` / `question-generator.js`.  All theorems quantify over an
arbitrary `Ext`. -/
structure Ext where
  applyFn : String → List JSNum → JSNum
  piVal : JSNum
  eVal : JSNum
  numToString : ℚ → String
  radicalFmt : JSNum → Option String
  mathjsEval : String → Scope → Except Unit MathJsResult
  mathjsFraction : ℚ → Except Unit String
  mathjsFormat : String → Except Unit String

/-- A concrete environment instance used by witnesses and counterexamples
(the claims settled at concrete inputs never reach these components, or are
insensitive to them). -/
def extDefault : Ext where
  applyFn := fun _ _ => JSNum.nan
  piVal := JSNum.nan
  eVal := JSNum.nan
  numToString := fun _ => ""
  radicalFmt := fun _ => none
  mathjsEval := fun _ _ => .error ()
  mathjsFraction := fun _ => .error ()
  mathjsFormat := fun _ => .error ()

/-! ## Errors -/

/-- JS exceptions relevant to the embedded fragment. -/
inductive JsErr where
  | syntaxError (msg : String)
  | referenceError (name : String)
  | typeError (msg : String)
  | rangeError (msg : String)
deriving DecidableEq, Repr

/-! ## Tokenizer for the expression fragment -/

inductive Tok where
  | num (q : ℚ)
  | id (s : String)
  | plus
  | minus
  | star
  | slash
  | caret
  | lparen
  | rparen
  | comma
deriving DecidableEq, Repr

def isIdentStart (c : Char) : Bool := c.isAlpha || c = '_' || c = '$'

def isIdentChar (c : Char) : Bool := c.isAlphanum || c = '_' || c = '$'

/-- Accumulating digit reader: `readDigitsAcc acc len cs` consumes a maximal
run of decimal digits, returning their value, count, and the rest. -/
def readDigitsAcc : ℕ → ℕ → List Char → ℕ × ℕ × List Char
  | acc, len, [] => (acc, len, [])
  | acc, len, c :: t =>
      if c.isDigit then readDigitsAcc (acc * 10 + (c.toNat - 48)) (len + 1) t
      else (acc, len, c :: t)

/-- Read a maximal identifier tail. -/
def readIdent : List Char → List Char × List Char
  | [] => ([], [])
  | c :: t =>
      if isIdentChar c then
        let (i, rest) := readIdent t
        (c :: i, rest)
      else ([], c :: t)

/-- Tokenize the JS expression fragment.  A character outside the fragment is
a syntax failure (`new Function` would reject genuinely invalid characters; JS
constructs beyond the fragment are out of the modelled language). -/
def tokenize : ℕ → List Char → Except JsErr (List Tok)
  | 0, _ => .error (.syntaxError "fuel")
  | _, [] => .ok []
  | fuel + 1, c :: t =>
      if c = ' ' || c = '\t' || c = '\n' || c = '\r' then tokenize fuel t
      else if c = '+' then (tokenize fuel t).map (Tok.plus :: ·)
      else if c = '-' then (tokenize fuel t).map (Tok.minus :: ·)
      else if c = '*' then (tokenize fuel t).map (Tok.star :: ·)
      else if c = '/' then (tokenize fuel t).map (Tok.slash :: ·)
      else if c = '^' then (tokenize fuel t).map (Tok.caret :: ·)
      else if c = '(' then (tokenize fuel t).map (Tok.lparen :: ·)
      else if c = ')' then (tokenize fuel t).map (Tok.rparen :: ·)
      else if c = ',' then (tokenize fuel t).map (Tok.comma :: ·)
      else if c.isDigit then
        let (ip, _, rest) := readDigitsAcc 0 0 (c :: t)
        match rest with
        | '.' :: t2 =>
            let (fp, flen, rest2) := readDigitsAcc 0 0 t2
            (tokenize fuel rest2).map
              (Tok.num ((ip : ℚ) + (fp : ℚ) / ((10 : ℚ) ^ flen)) :: ·)
        | _ => (tokenize fuel rest).map (Tok.num (ip : ℚ) :: ·)
      else if isIdentStart c then
        let (i, rest) := readIdent (c :: t)
        (tokenize fuel rest).map (Tok.id (String.mk i) :: ·)
      else .error (.syntaxError (String.mk [c]))

/-! ## Parser (recursive descent, JS precedence) -/

/-- AST of the JS expression fragment.  `xor` is the JS meaning of `^`. -/
inductive JSExpr where
  | lit (q : ℚ)
  | var (name : String)
  | neg (e : JSExpr)
  | add (a b : JSExpr)
  | sub (a b : JSExpr)
  | mul (a b : JSExpr)
  | div (a b : JSExpr)
  | xor (a b : JSExpr)
  | call (f : String) (args : List JSExpr)
deriving Repr

abbrev PResult := Except JsErr (JSExpr × List Tok)

mutual

/-- `^` level: lowest precedence in the fragment, left-associative (JS bitwise
XOR binds looser than `+`/`-`). -/
def parseXor (fuel : ℕ) (ts : List Tok) : PResult :=
  match fuel with
  | 0 => .error (.syntaxError "fuel")
  | fuel + 1 => do
      let (lhs, rest) ← parseAdd fuel ts
      parseXorTail fuel lhs rest

def parseXorTail (fuel : ℕ) (lhs : JSExpr) (ts : List Tok) : PResult :=
  match fuel with
  | 0 => .error (.syntaxError "fuel")
  | fuel + 1 =>
      match ts with
      | Tok.caret :: t => do
          let (rhs, rest) ← parseAdd fuel t
          parseXorTail fuel (JSExpr.xor lhs rhs) rest
      | _ => .ok (lhs, ts)

/-- Additive level, left-associative. -/
def parseAdd (fuel : ℕ) (ts : List Tok) : PResult :=
  match fuel with
  | 0 => .error (.syntaxError "fuel")
  | fuel + 1 => do
      let (lhs, rest) ← parseMul fuel ts
      parseAddTail fuel lhs rest

def parseAddTail (fuel : ℕ) (lhs : JSExpr) (ts : List Tok) : PResult :=
  match fuel with
  | 0 => .error (.syntaxError "fuel")
  | fuel + 1 =>
      match ts with
      | Tok.plus :: t => do
          let (rhs, rest) ← parseMul fuel t
          parseAddTail fuel (JSExpr.add lhs rhs) rest
      | Tok.minus :: t => do
          let (rhs, rest) ← parseMul fuel t
          parseAddTail fuel (JSExpr.sub lhs rhs) rest
      | _ => .ok (lhs, ts)

/-- Multiplicative level, left-associative. -/
def parseMul (fuel : ℕ) (ts : List Tok) : PResult :=
  match fuel with
  | 0 => .error (.syntaxError "fuel")
  | fuel + 1 => do
      let (lhs, rest) ← parseUnary fuel ts
      parseMulTail fuel lhs rest

def parseMulTail (fuel : ℕ) (lhs : JSExpr) (ts : List Tok) : PResult :=
  match fuel with
  | 0 => .error (.syntaxError "fuel")
  | fuel + 1 =>
      match ts with
      | Tok.star :: t => do
          let (rhs, rest) ← parseUnary fuel t
          parseMulTail fuel (JSExpr.mul lhs rhs) rest
      | Tok.slash :: t => do
          let (rhs, rest) ← parseUnary fuel t
          parseMulTail fuel (JSExpr.div lhs rhs) rest
      | _ => .ok (lhs, ts)

/-- Unary level: `-` (and `+`, a no-op on numbers) bind tighter than `*`, `/`,
and therefore tighter than `^`: JS parses `-2^2` as `(-2)^2`. -/
def parseUnary (fuel : ℕ) (ts : List Tok) : PResult :=
  match fuel with
  | 0 => .error (.syntaxError "fuel")
  | fuel + 1 =>
      match ts with
      | Tok.minus :: t => do
          let (e, rest) ← parseUnary fuel t
          .ok (JSExpr.neg e, rest)
      | Tok.plus :: t => parseUnary fuel t
      | _ => parsePrimary fuel ts

def parsePrimary (fuel : ℕ) (ts : List Tok) : PResult :=
  match fuel with
  | 0 => .error (.syntaxError "fuel")
  | fuel + 1 =>
      match ts with
      | Tok.num q :: t => .ok (JSExpr.lit q, t)
      | Tok.id s :: Tok.lparen :: Tok.rparen :: t => .ok (JSExpr.call s [], t)
      | Tok.id s :: Tok.lparen :: t => do
          let (args, rest) ← parseArgs fuel t
          .ok (JSExpr.call s args, rest)
      | Tok.id s :: t => .ok (JSExpr.var s, t)
      | Tok.lparen :: t => do
          let (e, rest) ← parseXor fuel t
          match rest with
          | Tok.rparen :: t2 => .ok (e, t2)
          | _ => .error (.syntaxError "expected )")
      | _ => .error (.syntaxError "unexpected token")

def parseArgs (fuel : ℕ) (ts : List Tok) : Except JsErr (List JSExpr × List Tok) :=
  match fuel with
  | 0 => .error (.syntaxError "fuel")
  | fuel + 1 => do
      let (e, rest) ← parseXor fuel ts
      match rest with
      | Tok.comma :: t => do
          let (es, rest2) ← parseArgs fuel t
          .ok (e :: es, rest2)
      | Tok.rparen :: t => .ok ([e], t)
      | _ => .error (.syntaxError "expected , or )")

end

/-- Parse a whole token list as one expression. -/
def parseExpression (ts : List Tok) : Except JsErr JSExpr := do
  let (e, rest) ← parseXor (4 * ts.length + 8) ts
  match rest with
  | [] => .ok e
  | _ => .error (.syntaxError "trailing tokens")

/-! ## Evaluator for `evaluateJSExpression` (src/unnamed/part_000 lines 71-88)

`evaluateJSExpression` constructs `new Function('vars', ...helperNames, 'Math',
"with(vars){ return (<expression>); }")` and invokes it on the scope object and
the helper table.  Identifier resolution inside the generated function
therefore is: the `with`-scope (`vars`, including properties holding
`undefined`), then the parameters — the helper functions, `PI`, `E`, `Math`,
and `vars` itself — and nothing else that the embedding models (ambient
browser globals beyond `Math` are assumed absent). -/

/-- Runtime values of the fragment: a number, an ambient function/object
(identified by its name), or `undefined`. -/
inductive JSVal where
  | num (n : JSNum)
  | obj (name : String)
  | undef
deriving DecidableEq, Repr

/-- The injected helper *function* names (`part_000` lines 72-79; `PI` and `E`
are numeric helpers handled separately). -/
def helperFnNames : List String :=
  ["sqrt", "sin", "cos", "tan", "asin", "acos", "atan", "abs", "pow",
   "log", "ln", "exp", "min", "max", "round", "floor", "ceil"]

/-- `ToNumber` of a fragment value.  (`Number(undefined)` and `Number` of the
ambient objects/functions are `NaN`.  The string-concatenation behaviour of
`+` on objects is outside the modelled fragment: no template expression the
claims exercise adds a non-number.) -/
def toNumber : JSVal → JSNum
  | .num n => n
  | .obj _ => JSNum.nan
  | .undef => JSNum.nan

/-- Resolve an identifier in the environment of the constructed function. -/
def lookupIdent (ext : Ext) (scope : Scope) (s : String) : Except JsErr JSVal :=
  match scope.get? s with
  | some (some n) => .ok (.num n)
  | some none => .ok .undef
  | none =>
      if s ∈ helperFnNames then .ok (.obj s)
      else if s = "PI" then .ok (.num ext.piVal)
      else if s = "E" then .ok (.num ext.eVal)
      else if s = "Math" then .ok (.obj "Math")
      else if s = "vars" then .ok (.obj "vars")
      else .error (.referenceError s)

mutual

/-- Interpret a fragment AST. -/
def evalExpr (ext : Ext) (scope : Scope) : JSExpr → Except JsErr JSVal
  | .lit q => .ok (.num (.fin q))
  | .var s => lookupIdent ext scope s
  | .neg e => do
      let v ← evalExpr ext scope e
      .ok (.num (toNumber v).negate)
  | .add a b => do
      let va ← evalExpr ext scope a
      let vb ← evalExpr ext scope b
      .ok (.num (JSNum.add (toNumber va) (toNumber vb)))
  | .sub a b => do
      let va ← evalExpr ext scope a
      let vb ← evalExpr ext scope b
      .ok (.num (JSNum.sub (toNumber va) (toNumber vb)))
  | .mul a b => do
      let va ← evalExpr ext scope a
      let vb ← evalExpr ext scope b
      .ok (.num (JSNum.mul (toNumber va) (toNumber vb)))
  | .div a b => do
      let va ← evalExpr ext scope a
      let vb ← evalExpr ext scope b
      .ok (.num (JSNum.div (toNumber va) (toNumber vb)))
  | .xor a b => do
      let va ← evalExpr ext scope a
      let vb ← evalExpr ext scope b
      .ok (.num (JSNum.xor (toNumber va) (toNumber vb)))
  | .call f args => do
      let cv ← lookupIdent ext scope f
      let vs ← evalArgs ext scope args
      match cv with
      | .obj name =>
          if name ∈ helperFnNames then .ok (.num (ext.applyFn name vs))
          else .error (.typeError f)
      | _ => .error (.typeError f)

def evalArgs (ext : Ext) (scope : Scope) : List JSExpr → Except JsErr (List JSNum)
  | [] => .ok []
  | e :: t => do
      let v ← evalExpr ext scope e
      let vs ← evalArgs ext scope t
      .ok (toNumber v :: vs)

end

/-- `evaluateJSExpression(expression, variables)` (part_000 lines 71-88):
build a function from the raw expression text and run it against the scope.
No token whitelist is applied anywhere on this path — whatever the string
means as a JS expression is executed. -/
def evaluateJSExpression (ext : Ext) (expression : String) (vars : Scope) :
    Except JsErr JSVal := do
  let ts ← tokenize (expression.length + 1) expression.data
  let e ← parseExpression ts
  evalExpr ext vars e

/-! ## Math helpers (src/unnamed/part_000 lines 58-69, 166-200) -/

/-- `gcd(a, b)` (part_000 lines 62-69): the Euclidean loop on absolute values,
which is exactly `Int.gcd`. -/
def gcd (a b : ℤ) : ℤ := (Int.gcd a b : ℤ)

/-- The continued-fraction term loop of `approximateFraction` (part_000 lines
171-178): up to 20 terms, stopping when the fractional part drops below
`eps`. -/
def cfTerms (eps : ℚ) : ℕ → ℚ → List ℤ
  | 0, _ => []
  | fuel + 1, q =>
      let ai := ⌊q⌋
      let frac := q - ai
      if frac < eps then [ai] else ai :: cfTerms eps fuel (1 / frac)

/-- The convergent loop of `approximateFraction` (part_000 lines 186-192),
stopping before the denominator exceeds `maxDenominator`. -/
def convergeLoop (maxDen : ℤ) : List ℤ → ℤ × ℤ → ℤ × ℤ → ℤ × ℤ
  | [], _, cur => cur
  | ai :: t, (n0, d0), (n1, d1) =>
      let n2 := ai * n1 + n0
      let d2 := ai * d1 + d0
      if d2 > maxDen then (n1, d1) else convergeLoop maxDen t (n1, d1) (n2, d2)

/-- `approximateFraction(x, maxDenominator, eps)` (part_000 lines 166-200).
The JS works on doubles; on the exact rationals our theorems use, the floors
and comparisons below coincide with the double computation. -/
def approximateFraction (x : ℚ) (maxDenominator : ℤ) (eps : ℚ) : Option (ℤ × ℤ) :=
  let sign : ℤ := if x < 0 then -1 else 1
  let ax := |x|
  match cfTerms eps 20 ax with
  | [] => none
  | [a0] => some (sign * a0, 1)
  | a0 :: rest =>
      let (n1, d1) := convergeLoop maxDenominator rest (1, 0) (a0, 1)
      let g := gcd n1 d1
      let aN := sign * (n1 / g)
      let aD := d1 / g
      if |(aN : ℚ) / (aD : ℚ) - ax| < eps then some (aN, aD) else none

/-! ## The division-detection regex (src/unnamed/part_000 lines 93-116)

`tryParseIntegerDivision` matches the formula against
`/\(?\s*([^()\/]+)\s*\/\s*([^()\/]+)\s*\)?$/`.  The matcher below implements
exactly this pattern with JavaScript semantics: leftmost match position,
greedy quantifiers with backtracking, end-anchored. -/

def notParenSlash (c : Char) : Bool := !(c = '(' || c = ')' || c = '/')

/-- Greedy `p*` in continuation-passing style: consume as many `p`-characters
as possible, backtracking one at a time; `k` receives the consumed prefix and
the rest. -/
def manyGreedy {α : Type} (p : Char → Bool)
    (k : List Char → List Char → Option α) :
    List Char → List Char → Option α
  | acc, [] => k acc.reverse []
  | acc, c :: t =>
      if p c then
        match manyGreedy p k (c :: acc) t with
        | some r => some r
        | none => k acc.reverse (c :: t)
      else k acc.reverse (c :: t)

/-- Greedy `p+`: like `manyGreedy` but requiring at least one character. -/
def onePlusGreedy {α : Type} (p : Char → Bool)
    (k : List Char → List Char → Option α) :
    List Char → Option α
  | [] => none
  | c :: t => if p c then manyGreedy p k [c] t else none

/-- Attempt the division pattern at one start position (everything after the
optional opening paren): `\s*([^()\/]+)\s*\/\s*([^()\/]+)\s*\)?$`. -/
def matchDivBody (s : List Char) : Option (List Char × List Char) :=
  manyGreedy isJsSpace (fun _ s2 =>
    onePlusGreedy notParenSlash (fun g1 s3 =>
      manyGreedy isJsSpace (fun _ s4 =>
        match s4 with
        | '/' :: s5 =>
            manyGreedy isJsSpace (fun _ s6 =>
              onePlusGreedy notParenSlash (fun g2 s7 =>
                manyGreedy isJsSpace (fun _ s8 =>
                  match s8 with
                  | [] => some (g1, g2)
                  | [')'] => some (g1, g2)
                  | _ => none) [] s7) s6) [] s5
        | _ => none) [] s3) s2) [] s

/-- Attempt the full pattern (with the optional `\(?`) at one position. -/
def matchDivAt (s : List Char) : Option (List Char × List Char) :=
  match s with
  | '(' :: t =>
      (match matchDivBody t with
       | some r => some r
       | none => matchDivBody s)
  | _ => matchDivBody s

/-- `String.prototype.match`: try successive start positions, leftmost wins. -/
def findDivMatch : List Char → Option (List Char × List Char)
  | [] => none
  | c :: t =>
      match matchDivAt (c :: t) with
      | some r => some r
      | none => findDivMatch t

/-- `tryParseIntegerDivision(formula, vars)` (part_000 lines 93-116): split the
formula at the regex, evaluate both sides, and accept only integer / nonzero
integer. -/
def tryParseIntegerDivision (ext : Ext) (formula : String) (vars : Scope) :
    Option (ℤ × ℤ) :=
  if formula = "" then none
  else
    match findDivMatch formula.data with
    | none => none
    | some (g1, g2) =>
        let numExpr := String.mk (trimChars g1)
        let denExpr := String.mk (trimChars g2)
        match evaluateJSExpression ext numExpr vars with
        | .error _ => none
        | .ok nv =>
            match evaluateJSExpression ext denExpr vars with
            | .error _ => none
            | .ok dv =>
                match nv, dv with
                | .num (.fin n), .num (.fin d) =>
                    if n.den = 1 && d.den = 1 && d ≠ 0 then some (n.num, d.num)
                    else none
                | _, _ => none

/-! ## `formatNumberForDisplay` (src/unnamed/part_000 lines 205-244) -/

/-- The fraction markup `\( \frac{ns}{ds} \)` built by steps 2 and 4. -/
def fracWrap (ns ds : String) : String :=
  "\\( \\frac\x7b" ++ ns ++ "\x7d\x7b" ++ ds ++ "\x7d \\)"

/-- `String(n)` for the step-2 numerator: the source writes
`n < 0 ? '-' + (-n) : n`, which is the usual signed decimal string. -/
def jsIntStr (n : ℤ) : String :=
  if n < 0 then "-" ++ toString (-n) else toString n

/-- `num.toFixed(8)` followed by `.replace(/\.?0+$/, '')` (part_000 lines
241-243), on an exact rational (rounding half away from zero). -/
def toFixed8Stripped (q : ℚ) : String :=
  let m : ℤ := ⌊|q| * 100000000 + (1 : ℚ) / 2⌋
  let ip := m / 100000000
  let fp := (m % 100000000).toNat
  let digits := Nat.toDigits 10 fp
  let padded := List.replicate (8 - digits.length) '0' ++ digits
  let stripped := (padded.reverse.dropWhile (· = '0')).reverse
  let body :=
    if stripped.isEmpty then toString ip
    else toString ip ++ "." ++ String.mk stripped
  if q < 0 then "-" ++ body else body

/-- `formatNumberForDisplay(num, formula, vars)` (part_000 lines 205-244).
`num = none` models `undefined`; non-finite and `NaN` inputs are stringified
as-is; the cascade is integer → exact fraction from the source division →
simplified radical (abstracted float search) → approximate fraction →
stripped 8-digit decimal. -/
def formatNumberForDisplay (ext : Ext) (num : Option JSNum)
    (formula : Option String := none) (vars : Option Scope := none) : String :=
  match num with
  | none => "undefined"
  | some .nan => "NaN"
  | some .inf => "Infinity"
  | some .negInf => "-Infinity"
  | some (.fin q) =>
      if q.den = 1 then toString q.num
      else
        let step2 : Option String :=
          match formula, vars with
          | some f, some vs =>
              (tryParseIntegerDivision ext f vs).map (fun (nd : ℤ × ℤ) =>
                let sign : ℤ := if nd.1 < 0 then -1 else 1
                let g := gcd nd.1 nd.2
                let n := |nd.1| / g * sign
                let d := |nd.2| / g
                if d = 1 then toString n
                else fracWrap (jsIntStr n) (toString d))
          | _, _ => none
        match step2 with
        | some s => s
        | none =>
            match ext.radicalFmt (.fin q) with
            | some r => r
            | none =>
                let step4 : Option String :=
                  match approximateFraction q 1000 (1 / 10 ^ 12) with
                  | some (n, d) =>
                      if d ≠ 1 ∧ |(n : ℚ) / (d : ℚ) - q| < 1 / 10 ^ 12 then
                        some (fracWrap (toString n) (toString d))
                      else none
                  | none => none
                match step4 with
                | some s => s
                | none =>
                    let s := toFixed8Stripped q
                    if s = "" then "0" else s

/-- `evaluateMathExpression(expression, variables)` (part_000 lines 352-364):
evaluate against the scope (without `__display`), return the expression itself
on a `NaN` result, `"Error"` on a thrown error, and the formatted number
otherwise.  Note that an `Infinity` result is *not* an error: it flows into
`formatNumberForDisplay`, which stringifies it. -/
def evaluateMathExpression (ext : Ext) (expression : String) (vars : Scope) :
    String :=
  let numericVars := vars.eraseKey "__display"
  match evaluateJSExpression ext expression numericVars with
  | .error _ => "Error"
  | .ok result =>
      let num := toNumber result
      if num.isNaN then expression
      else formatNumberForDisplay ext (some num)

/-! ## Question templates (data model) -/

/-- One entry of a constraint's `exclude` list: a literal number, or a string
(either a reference to another variable or a numeric string). -/
inductive Exclusion where
  | str (s : String)
  | num (q : ℚ)
deriving DecidableEq, Repr

/-- The duck-typed constraint object: any subset of the fields
`values / min / max / formula / default / exclude / display` may be present. -/
structure ConstraintSpec where
  values : Option (List ℚ) := none
  min : Option ℚ := none
  max : Option ℚ := none
  formula : Option String := none
  defaultVal : Option ℚ := none
  exclude : List Exclusion := []
  display : Option String := none
deriving DecidableEq, Repr

/-- A template's variable definition: a bare number, a falsy value (JSON
`null`), or a constraint object. -/
inductive VarDef where
  | num (v : ℚ)
  | null
  | obj (spec : ConstraintSpec)
deriving DecidableEq, Repr

/-- Truthiness of `constraints.formula` (the empty string is falsy). -/
def VarDef.isFormula : VarDef → Bool
  | .obj s =>
      match s.formula with
      | some f => f ≠ ""
      | none => false
  | _ => false

/-- The `variables` field of a question template. -/
abbrev VarDefs := StrMap VarDef

/-- `Math.random`: a stream of draws in `[0, 1)`, consumed left to right.  All
theorems about generation quantify over the stream, which is the only source
of nondeterminism the embedding threads. -/
structure RandSrc where
  val : ℕ → ℚ
  lo : ∀ n, 0 ≤ val n
  hi : ∀ n, val n < 1

/-- A constant-zero random source (used for witnesses). -/
def randZero : RandSrc where
  val := fun _ => 0
  lo := fun _ => le_refl 0
  hi := fun _ => one_pos

/-- `Number(s)` on the strings appearing in exclusion lists: empty/whitespace
is `0`, an optionally signed decimal numeral is its value, anything else is
`NaN`. -/
def jsNumberOfString (s : String) : JSNum :=
  let t := trimChars s.data
  match t with
  | [] => .fin 0
  | _ =>
      let (sign, t1) : ℚ × List Char :=
        match t with
        | '-' :: r => (-1, r)
        | '+' :: r => (1, r)
        | _ => (1, t)
      match t1 with
      | c :: _ =>
          if c.isDigit then
            let (ip, _, rest) := readDigitsAcc 0 0 t1
            match rest with
            | [] => .fin (sign * ip)
            | '.' :: t2 =>
                let (fp, flen, rest2) := readDigitsAcc 0 0 t2
                if rest2 = [] then
                  .fin (sign * ((ip : ℚ) + (fp : ℚ) / ((10 : ℚ) ^ flen)))
                else .nan
            | _ => .nan
          else .nan
      | [] => .nan

/-! ## `validateVariableValue` / `generateVariableValue`
(src/unnamed/part_000 lines 13-56; `src/js/utils/question-utils.js` lines
9-56 is the same algorithm with a slightly simpler string-exclusion branch) -/

/-- `validateVariableValue(value, constraints, allVars)` (part_000 lines
13-32): the value must differ (under `===`) from every exclusion; a string
exclusion refers to another variable when that variable is defined, and is
otherwise coerced with `Number`. -/
def validateVariableValue (value : Option JSNum) (spec : ConstraintSpec)
    (allVars : Scope) : Bool :=
  spec.exclude.all fun ex =>
    match ex with
    | .str s =>
        match allVars.get? s with
        | some (some w) => !strictEq value (some w)
        | _ =>
            let numEx := jsNumberOfString s
            !(!numEx.isNaN && strictEq value (some numEx))
    | .num q => !strictEq value (some (.fin q))

/-- One draw of the `do` body (part_000 lines 38-45): an enumerated pick, a
range draw, or the declared default (or 0).  Returns the drawn value
(`none` = JS `undefined`, possible only for an empty `values` array) and the
next random-stream index. -/
def drawOnce (spec : ConstraintSpec) (r : RandSrc) (i : ℕ) :
    Option JSNum × ℕ :=
  match spec.values with
  | some vs => ((vs.get? (⌊r.val i * vs.length⌋).toNat).map .fin, i + 1)
  | none =>
      match spec.min, spec.max with
      | some lo, some hi =>
          (some (.fin ((⌊r.val i * (hi - lo + 1)⌋ : ℤ) + lo)), i + 1)
      | _, _ => (some (.fin (spec.defaultVal.getD 0)), i)

/-- The `do … while (!validateVariableValue(value, …) && attempts < maxAttempts)`
loop.  Returns the last drawn value, the final `attempts` counter, and the
next stream index.  Fuel 50 is enough for the 50-attempt bound. -/
def genLoop (spec : ConstraintSpec) (allVars : Scope) (r : RandSrc) :
    ℕ → ℕ → ℕ → Option JSNum × ℕ × ℕ
  | fuel, attempts, i =>
      let (v, i') := drawOnce spec r i
      let attempts' := attempts + 1
      if !validateVariableValue v spec allVars && attempts' < 50 then
        match fuel with
        | 0 => (v, attempts', i')
        | fuel + 1 => genLoop spec allVars r fuel attempts' i'
      else (v, attempts', i')

/-- `generateVariableValue(key, constraints, allVars)` (part_000 lines 34-56,
`maxAttempts = 50`): run the draw loop; when the loop ends with
`attempts >= maxAttempts` — which happens whenever the 50th draw was reached,
even if that draw was valid — fall back to the declared default or 0. -/
def generateVariableValue (spec : ConstraintSpec) (allVars : Scope)
    (r : RandSrc) (i : ℕ) : Option JSNum × ℕ :=
  let (v, attempts, i') := genLoop spec allVars r 50 0 i
  if attempts ≥ 50 then (some (.fin (spec.defaultVal.getD 0)), i')
  else (v, i')

/-! ## `generateQuestionVariables` (src/unnamed/part_000 lines 250-325) -/

/-- Pass 1 (lines 256-264): literal numbers are copied, falsy and formula
constraints are skipped, all other constraints are drawn.  Returns the scope
and the next stream index. -/
def pass1 (r : RandSrc) : List (String × VarDef) → Scope → ℕ → Scope × ℕ
  | [], vars, i => (vars, i)
  | (k, .num v) :: t, vars, i => pass1 r t (vars.set k (some (.fin v))) i
  | (_, .null) :: t, vars, i => pass1 r t vars i
  | (k, .obj spec) :: t, vars, i =>
      if (VarDef.obj spec).isFormula then pass1 r t vars i
      else
        let (v, i') := generateVariableValue spec vars r i
        pass1 r t (vars.set k v) i'

/-- `variableDefinitions[key]?.formula`. -/
def formulaOf (defs : VarDefs) (k : String) : Option String :=
  match defs.get? k with
  | some (.obj s) => s.formula
  | _ => none

/-- One iteration of the pass-2 `while` loop (lines 271-288): attempt every
pending formula key against the scope built so far; a successful non-`NaN`
numeric result is stored immediately (later formulas in the same iteration see
it).  Returns the updated scope and the keys resolved this iteration. -/
def formulaPass (ext : Ext) (defs : VarDefs) :
    List String → Scope → List String → Scope × List String
  | [], vars, resolved => (vars, resolved.reverse)
  | k :: t, vars, resolved =>
      match formulaOf defs k with
      | none => formulaPass ext defs t vars resolved
      | some f =>
          match evaluateJSExpression ext f vars with
          | .error _ => formulaPass ext defs t vars resolved
          | .ok raw =>
              let value := toNumber raw
              if value.isNaN then formulaPass ext defs t vars resolved
              else formulaPass ext defs t (vars.set k (some value)) (k :: resolved)

/-- Pass 2 (lines 266-299): iterate `formulaPass` up to 20 times; when an
iteration resolves nothing while keys remain, force the remaining keys to the
`NaN` sentinel and stop.  (The matching `displayVars[k] = "NaN"` writes are
overwritten by the display loop below, which maps a `NaN` value back to
`"NaN"`, so only the numeric writes are modelled.) -/
def resolveFormulas (ext : Ext) (defs : VarDefs) :
    ℕ → List String → Scope → Scope
  | _, [], vars => vars
  | 0, _, vars => vars
  | fuel + 1, keys, vars =>
      let (vars', resolved) := formulaPass ext defs keys vars []
      let keys' := keys.filter (fun k => !resolved.contains k)
      if resolved.isEmpty && !keys'.isEmpty then
        keys'.foldl (fun v k => v.set k (some .nan)) vars'
      else resolveFormulas ext defs fuel keys' vars'

/-- `String(numeric)` for a scope value in the display loop. -/
def jsNumToString (ext : Ext) : JSNum → String
  | .nan => "NaN"
  | .inf => "Infinity"
  | .negInf => "-Infinity"
  | .fin q => if q.den = 1 then toString q.num else ext.numToString q

/-- The display string computed for one key by the display-map loop (lines
306-315): formula variables are formatted with their formula and the numeric
scope; `display: 'math'` variables are formatted bare; everything else
stringifies the raw value (`''` for an absent one). -/
def displayEntry (ext : Ext) (vars : Scope) (k : String) (c : VarDef) :
    String :=
  let numeric : Option JSNum := (vars.get? k).getD none
  let plain : String :=
    match numeric with
    | none => ""
    | some n => jsNumToString ext n
  match c with
  | .obj spec =>
      if (VarDef.obj spec).isFormula then
        formatNumberForDisplay ext numeric spec.formula (some vars)
      else if spec.display = some "math" then
        formatNumberForDisplay ext numeric
      else plain
  | _ => plain

/-- The display-map loop (lines 305-315): every declared key is written. -/
def buildDisplay (ext : Ext) (vars : Scope) :
    List (String × VarDef) → StrMap String → StrMap String
  | [], disp => disp
  | (k, c) :: t, disp =>
      buildDisplay ext vars t (disp.set k (displayEntry ext vars k c))

/-- The object returned by `generateQuestionVariables`: the enumerable
properties (the numeric scope) plus the display map, which
`Object.defineProperty` attaches as the non-enumerable `__display` property
(modelled as a separate field; `props` holds exactly the enumerable keys). -/
structure QVars where
  props : Scope
  display : StrMap String

/-- `generateQuestionVariables(questionTemplate)` (lines 250-325) before the
final `defineProperty`. -/
def generateQuestionVariablesCore (ext : Ext) (defs : VarDefs) (r : RandSrc) :
    Scope × StrMap String :=
  let (vars1, _) := pass1 r defs StrMap.empty 0
  let formulaKeys := (defs.filter (fun p => p.2.isFormula)).map (·.1)
  let vars2 := resolveFormulas ext defs 20 formulaKeys vars1
  (vars2, buildDisplay ext vars2 defs StrMap.empty)

/-- `generateQuestionVariables(questionTemplate)` (lines 250-325).  The final
`Object.defineProperty(vars, '__display', { enumerable: false, … })` makes
`__display` a non-enumerable property: it is removed from the enumerable
`props` (it could only be there if the template itself defined a variable
named `__display`) and carried in the `display` field. -/
def generateQuestionVariables (ext : Ext) (defs : VarDefs) (r : RandSrc) :
    QVars :=
  let (vars, disp) := generateQuestionVariablesCore ext defs r
  ⟨vars.eraseKey "__display", disp⟩

/-! ## `replaceTemplateVariables` (src/unnamed/part_000 lines 330-350) -/

/-- The keys the substitution loop iterates:
`Object.keys(variables).filter(k => k !== '__display')`. -/
def replacementKeys (qv : QVars) : List String :=
  qv.props.keys.filter (fun k => k ≠ "__display")

/-- `replacements[key]` (lines 336-339): the display string when present and
nonempty, else `String(variables[key])`. -/
def replacementFor (ext : Ext) (qv : QVars) (k : String) : String :=
  let fallback : String :=
    match qv.props.get? k with
    | some (some n) => jsNumToString ext n
    | _ => "undefined"
  match qv.display.get? k with
  | some d => if d ≠ "" then d else fallback
  | none => fallback

/-- `replaceTemplateVariables(text, variables)` (lines 330-350): replace every
`{key}` by its replacement, longest key first.  (`escapeRegExp` makes the JS
regex a literal `{key}` search; `$`-substitution patterns in replacement
values are not modelled — no generated display string contains `$`.) -/
def replaceTemplateVariables (ext : Ext) (text : String) (qv : QVars) :
    String :=
  if text = "" then text
  else
    let pairs := (replacementKeys qv).map
      (fun k => (k, replacementFor ext qv k))
    let sorted := pairs.mergeSort (fun a b => a.1.length ≥ b.1.length)
    sorted.foldl
      (fun res kv => res.replace ("\x7b" ++ kv.1 ++ "\x7d") kv.2) text

/-! ## math.js based `evaluateMathExpression`
(src/js/utils/question-utils.js lines 109-176) -/

/-- Consume `[^}]+` up to a closing `}` (which is consumed as well). -/
def splitUntilBrace : List Char → List Char → Option (List Char × List Char)
  | _, [] => none
  | acc, c :: r =>
      if c = '}' then (if acc.isEmpty then none else some (acc.reverse, r))
      else splitUntilBrace (c :: acc) r

/-- The LaTeX→math.js preprocessing chain of regex replacements
(question-utils.js lines 112-137).  Each brace-macro pattern
(`\frac{..}{..}`, `^{..}`, `\sqrt{..}`) uses `[^}]+` groups, which makes the
global replacement a deterministic left-to-right scan. -/
def replaceFrac : ℕ → List Char → List Char
  | 0, s => s
  | fuel + 1, s =>
      match s with
      | [] => []
      | '\\' :: 'f' :: 'r' :: 'a' :: 'c' :: '{' :: t =>
          (match splitUntilBrace [] t with
           | some (g1, rest1) =>
               (match rest1 with
                | '{' :: t2 =>
                    (match splitUntilBrace [] t2 with
                     | some (g2, rest2) =>
                         '(' :: g1 ++ ')' :: '/' :: '(' :: g2 ++ ')' ::
                           replaceFrac fuel rest2
                     | none => '\\' :: replaceFrac fuel s.tail)
                | _ => '\\' :: replaceFrac fuel s.tail)
           | none => '\\' :: replaceFrac fuel s.tail)
      | c :: t => c :: replaceFrac fuel t

def replaceCaretBrace : ℕ → List Char → List Char
  | 0, s => s
  | fuel + 1, s =>
      match s with
      | [] => []
      | '^' :: '{' :: t =>
          (match splitUntilBrace [] t with
           | some (g, rest) => '^' :: '(' :: g ++ ')' :: replaceCaretBrace fuel rest
           | none => '^' :: replaceCaretBrace fuel ('{' :: t))
      | c :: t => c :: replaceCaretBrace fuel t

def replaceSqrtBrace : ℕ → List Char → List Char
  | 0, s => s
  | fuel + 1, s =>
      match s with
      | [] => []
      | '\\' :: 's' :: 'q' :: 'r' :: 't' :: '{' :: t =>
          (match splitUntilBrace [] t with
           | some (g, rest) =>
               's' :: 'q' :: 'r' :: 't' :: '(' :: g ++ ')' ::
                 replaceSqrtBrace fuel rest
           | none => '\\' :: replaceSqrtBrace fuel s.tail)
      | c :: t => c :: replaceSqrtBrace fuel t

/-- The full preprocessing pipeline (question-utils.js lines 112-137):
fractions, braced exponents, square roots, `\cdot`/`\times`/`\div`,
`\left`/`\right` brackets, then removal of every remaining backslash. -/
def preprocessLatex (expression : String) : String :=
  let s1 := String.mk (replaceFrac (expression.length + 1) expression.data)
  let s2 := String.mk (replaceCaretBrace (s1.length + 1) s1.data)
  let s3 := String.mk (replaceSqrtBrace (s2.length + 1) s2.data)
  let s4 := ((((((s3.replace "\\cdot" "*").replace "\\times" "*").replace
      "\\div" "/").replace "\\left(" "(").replace "\\right)" ")").replace
      "\\left[" "[").replace "\\right]" "]"
  s4.replace "\\" ""

/-- `evaluateMathExpression(expression, variables)`
(src/js/utils/question-utils.js lines 109-176), the math.js variant used by
`question-generator.js`.

The whole body sits in a `try`; the `catch` block's diagnostic interpolates
`processedExpression`, but that binding is declared with `let` *inside* the
`try` block and is not in scope in the `catch` block — so whenever the inner
evaluation throws, the `catch` block itself throws
`ReferenceError: processedExpression is not defined`, which propagates to the
caller.  Hence the error case below is an `Except.error`, not the
`"Error in calculation"` string the source appears to return.

A finite non-integer result is formatted through `mathInstance.fraction`
(abstracted); `fraction` throws on `NaN`/`±Infinity`, so those fall back to
`result.toString()`. -/
def evaluateMathExpressionMathjs (ext : Ext) (expression : String)
    (vars : Scope) : Except JsErr String :=
  let processed := preprocessLatex expression
  let catchErr : JsErr := .referenceError "processedExpression is not defined"
  match ext.mathjsEval processed vars with
  | .error _ => .error catchErr
  | .ok (.number n) =>
      match n with
      | .fin q =>
          if q.den = 1 then .ok (toString q.num)
          else
            match ext.mathjsFraction q with
            | .ok formatted =>
                let parts := (splitOnChar '/' formatted.data).map String.mk
                if parts.length ≥ 2 then
                  .ok ("\\( \\frac\x7b" ++ parts.getD 0 "" ++ "\x7d\x7b" ++
                    parts.getD 1 "undefined" ++ "\x7d \\)")
                else .ok formatted
            | .error _ => .ok (jsNumToString ext n)
      | .nan => .ok "NaN"
      | .inf => .ok "Infinity"
      | .negInf => .ok "-Infinity"
  | .ok (.other s) =>
      match ext.mathjsFormat s with
      | .ok f => .ok f
      | .error _ => .error catchErr

/-! ## `formatVariableValue` (src/js/core/question-generator.js lines 88-158) -/

/-- `parseInt(s, 10)`: optional sign, at least one leading digit; trailing
garbage ignored; otherwise `NaN` (`none`). -/
def jsParseInt (s : String) : Option ℤ :=
  let t := trimChars s.data
  let (sign, t1) : ℤ × List Char :=
    match t with
    | '-' :: r => (-1, r)
    | '+' :: r => (1, r)
    | _ => (1, t)
  match t1 with
  | c :: _ =>
      if c.isDigit then
        let (ip, _, _) := readDigitsAcc 0 0 t1
        some (sign * ip)
      else none
  | [] => none

/-- `x.toFixed(p)` with p digits, no stripping: throws a `RangeError` when the
digits argument is outside `[0, 100]` (checked before the `NaN` case, per the
JS spec), stringifies non-finite values, and otherwise rounds half away from
zero. -/
def jsToFixed (v : JSNum) (p : ℤ) : Except JsErr String :=
  if p < 0 ∨ 100 < p then .error (.rangeError "toFixed() digits argument")
  else
    match v with
    | .nan => .ok "NaN"
    | .inf => .ok "Infinity"
    | .negInf => .ok "-Infinity"
    | .fin q =>
        let n := p.toNat
        let m : ℤ := ⌊|q| * (10 : ℚ) ^ n + (1 : ℚ) / 2⌋
        let ip := m / (10 : ℤ) ^ n
        let fp := (m % (10 : ℤ) ^ n).toNat
        let digits := Nat.toDigits 10 fp
        let padded := List.replicate (n - digits.length) '0' ++ digits
        let body :=
          if n = 0 then toString ip
          else toString ip ++ "." ++ String.mk padded
        .ok (if q < 0 then "-" ++ body else body)

/-- `value >= 0` on a JS number (`NaN >= 0` is false). -/
def jsGe0 : JSNum → Bool
  | .fin q => 0 ≤ q
  | .inf => true
  | _ => false

/-- `value < 0` on a JS number. -/
def jsLt0 : JSNum → Bool
  | .fin q => q < 0
  | .negInf => true
  | _ => false

/-- `Math.abs`. -/
def jsAbs : JSNum → JSNum
  | .fin q => .fin |q|
  | .nan => .nan
  | _ => .inf

/-- `formatVariableValue(value, options)` (question-generator.js lines
88-158): `fraction` / `decimal:n` / `percent` / `signedCoef` / `sign` /
`coef` handling.  The only throw site is `toFixed` with an out-of-range
parsed precision. -/
def formatVariableValue (ext : Ext) (value : JSNum) (options : List String) :
    Except JsErr String :=
  if options.contains "fraction" then
    .ok (match value with
      | .fin q =>
          match ext.mathjsFraction q with
          | .ok formatted =>
              let parts := (splitOnChar '/' formatted.data).map String.mk
              if parts.length ≥ 2 then
                "\\frac\x7b" ++ parts.getD 0 "" ++ "\x7d\x7b" ++
                  parts.getD 1 "undefined" ++ "\x7d"
              else formatted
          | .error _ => jsNumToString ext value
      | _ => jsNumToString ext value)
  else
    let afterDecimal : Option (Except JsErr String) :=
      match options.find? (fun o => charsLead "decimal:".data o.data) with
      | some dm =>
          match jsParseInt (((splitOnChar ':' dm.data).map String.mk).getD 1 "") with
          | some p =>
              some (if value.isInteger then .ok (jsNumToString ext value)
                    else jsToFixed value p)
          | none => none
      | none => none
    match afterDecimal with
    | some r => r
    | none =>
        if options.contains "percent" then
          let percent := JSNum.mul value (.fin 100)
          if percent.isInteger then .ok (jsNumToString ext percent ++ "%")
          else (jsToFixed percent 2).map (· ++ "%")
        else if options.contains "signedCoef" then
          if strictEq (some value) (some (.fin 0)) then .ok ""
          else
            let sign := if jsGe0 value then "+" else "-"
            let coef :=
              if strictEq (some (jsAbs value)) (some (.fin 1)) then ""
              else jsNumToString ext (jsAbs value)
            .ok (sign ++ coef)
        else
          let useSign := options.contains "sign"
          let useCoef := options.contains "coef"
          let sign :=
            if useSign then (if jsGe0 value then "+" else "-")
            else if jsLt0 value then "-"
            else ""
          let absVal := jsAbs value
          let coef :=
            if useCoef then
              (if strictEq (some absVal) (some (.fin 1)) then ""
               else jsNumToString ext absVal)
            else jsNumToString ext absVal
          .ok (sign ++ coef)

/-! ## `processFormattedVariables` (src/js/core/question-generator.js lines
73-82)

The source replaces every match of
`/\{([a-zA-Z_][a-zA-Z0-9_]*)(\|[^}]*)*\}/g`.  Because the name characters
cannot be `|` or `}` and `[^}]*` stops exactly at the next `}`, matching at a
given position is deterministic, so the global replace decomposes the text
into a unique list of literal characters and placeholder matches. -/

inductive FmtPiece where
  | lit (c : Char)
  | ph (whole name : String) (opts : Option String)
deriving DecidableEq, Repr

def isFmtNameStart (c : Char) : Bool := c.isAlpha || c = '_'

def isFmtNameChar (c : Char) : Bool := c.isAlphanum || c = '_'

/-- Read a maximal `[a-zA-Z0-9_]*` run. -/
def readFmtName : List Char → List Char × List Char
  | [] => ([], [])
  | c :: t =>
      if isFmtNameChar c then
        let (n, rest) := readFmtName t
        (c :: n, rest)
      else ([], c :: t)

/-- Try the placeholder pattern right after an opening `{`: an identifier-ish
name, then either a closing `}` or `|`-led options up to the closing `}`. -/
def matchFmtAt (s : List Char) :
    Option (List Char × Option (List Char) × List Char) :=
  match s with
  | c :: t =>
      if isFmtNameStart c then
        let (n, rest) := readFmtName t
        match rest with
        | r0 :: r =>
            if r0 = '}' then some (c :: n, none, r)
            else if r0 = '|' then
              match splitUntilBrace [] (r0 :: r) with
              | some (opts, rest2) => some (c :: n, some opts, rest2)
              | none => none
            else none
        | [] => none
      else none
  | [] => none

/-- Decompose a text into literal characters and placeholder matches. -/
def fmtSplit : ℕ → List Char → List FmtPiece
  | 0, s => s.map .lit
  | _, [] => []
  | fuel + 1, c :: t =>
      if c = '{' then
        match matchFmtAt t with
        | some (n, opts, rest) =>
            let optsStr := opts.map String.mk
            let whole := "\x7b" ++ String.mk n ++ optsStr.getD "" ++ "\x7d"
            .ph whole (String.mk n) optsStr :: fmtSplit fuel rest
        | none => .lit '{' :: fmtSplit fuel t
      else .lit c :: fmtSplit fuel t

/-- The raw text of a piece. -/
def fmtPieceRaw : FmtPiece → String
  | .lit c => String.mk [c]
  | .ph whole _ _ => whole

/-- `opts.slice(1).split('|').filter(o => o)` (line 78). -/
def parseOpts : Option String → List String
  | none => []
  | some o =>
      ((splitOnChar '|' (o.data.drop 1)).map String.mk).filter (· ≠ "")

/-- The replacement callback (lines 74-80): an absent (or `undefined`)
variable leaves the matched text untouched; otherwise the value is formatted
with the parsed options. -/
def fmtCallback (ext : Ext) (vars : Scope) : FmtPiece → Except JsErr String
  | .lit c => .ok (String.mk [c])
  | .ph whole name opts =>
      match vars.get? name with
      | some (some v) => formatVariableValue ext v (parseOpts opts)
      | _ => .ok whole

/-- `processFormattedVariables(text, variables)` (lines 73-82).  An exception
from the callback (the `toFixed` `RangeError`) propagates out of `replace`. -/
def processFormattedVariables (ext : Ext) (text : String) (vars : Scope) :
    Except JsErr String :=
  do
    let parts ← (fmtSplit (text.length + 1) text.data).mapM (fmtCallback ext vars)
    .ok (String.mk (parts.map String.data).flatten)

/-- `evaluateExpressionInTemplate(expr, variables, originalMatch)`
(question-generator.js lines 164-181): literal LaTeX (a backslash or a braced
exponent) passes through trimmed; otherwise the math.js evaluator runs, and
*any* thrown error — in particular the `ReferenceError` that
`evaluateMathExpression`'s broken `catch` block raises — is caught here,
logging a diagnostic and returning the original `{…}` text. -/
def evaluateExpressionInTemplate (ext : Ext) (expr : String) (vars : Scope)
    (originalMatch : String) : String :=
  let cleanExpr := String.mk (trimChars expr.data)
  if cleanExpr.data.contains '\\' || charsHave "^\x7b".data cleanExpr.data then
    cleanExpr
  else
    match evaluateMathExpressionMathjs ext cleanExpr vars with
    | .ok s => s
    | .error _ => originalMatch

/-! ## Specification vocabulary for the draw loop (claim C8)

These definitions are not part of the source embedding; they give the closed
form against which the loop in `generateVariableValue` is verified. -/

/-- Whether one draw consumes a value from the random stream (an enumerated
pick or a range draw does; the default fallback does not). -/
def drawConsumes (spec : ConstraintSpec) : Bool :=
  match spec.values with
  | some _ => true
  | none =>
      match spec.min, spec.max with
      | some _, some _ => true
      | _, _ => false

/-- The value of the `(j+1)`-th draw when the loop starts at stream index
`i`. -/
def drawAt (spec : ConstraintSpec) (r : RandSrc) (i j : ℕ) : Option JSNum :=
  (drawOnce spec r (i + j)).1

/-- The stream index after `k` draws starting from `i`. -/
def advance (spec : ConstraintSpec) (i k : ℕ) : ℕ :=
  if drawConsumes spec then i + k else i

/-- The 0-based index of the first draw within `bound` draws that satisfies
the exclusion list, following the indices the loop would use. -/
def firstValidIdx (spec : ConstraintSpec) (vars : Scope) (r : RandSrc) :
    ℕ → ℕ → Option ℕ
  | _, 0 => none
  | i, b + 1 =>
      let (v, i') := drawOnce spec r i
      if validateVariableValue v spec vars then some 0
      else (firstValidIdx spec vars r i' b).map (· + 1)

/-! ## Shared concrete data for counterexamples and witnesses -/

/-- The identifier whitelist named by the spec (§4.1).  Modelled from the
spec's words, for comparison against what the code actually accepts. -/
def specWhitelist : List String :=
  ["sqrt", "sin", "cos", "tan", "asin", "acos", "atan", "abs", "pow",
   "log", "ln", "exp", "min", "max", "round", "floor", "ceil", "pi", "e"]

/-- A two-variable scope `{a, b}`. -/
def scopeAB (a b : ℤ) : Scope :=
  [("a", some (.fin (a : ℚ))), ("b", some (.fin (b : ℚ)))]

/-- What the claim C4 predicts `format(a/b)` prints: the unique reduced
fraction with positive denominator and the sign on the numerator, collapsing
to a plain integer string when the denominator is 1.  (`ℚ`'s canonical
`num`/`den` is exactly that unique representation.) -/
def fractionClaim (a b : ℤ) (out : String) : Prop :=
  out =
    if ((a : ℚ) / (b : ℚ)).den = 1 then toString ((a : ℚ) / (b : ℚ)).num
    else fracWrap (jsIntStr ((a : ℚ) / (b : ℚ)).num)
      (toString ((a : ℚ) / (b : ℚ)).den)

/-- A 21-deep formula chain declared against dependency order (`f20` needs
`f19`, … , `f1` needs `f0`): each pass-2 iteration resolves exactly one
variable, so the 20-iteration bound runs out with `f20` still unresolved. -/
def chainDefs : VarDefs :=
  [("f20", .obj { formula := some "f19+1" }),
   ("f19", .obj { formula := some "f18+1" }),
   ("f18", .obj { formula := some "f17+1" }),
   ("f17", .obj { formula := some "f16+1" }),
   ("f16", .obj { formula := some "f15+1" }),
   ("f15", .obj { formula := some "f14+1" }),
   ("f14", .obj { formula := some "f13+1" }),
   ("f13", .obj { formula := some "f12+1" }),
   ("f12", .obj { formula := some "f11+1" }),
   ("f11", .obj { formula := some "f10+1" }),
   ("f10", .obj { formula := some "f9+1" }),
   ("f9", .obj { formula := some "f8+1" }),
   ("f8", .obj { formula := some "f7+1" }),
   ("f7", .obj { formula := some "f6+1" }),
   ("f6", .obj { formula := some "f5+1" }),
   ("f5", .obj { formula := some "f4+1" }),
   ("f4", .obj { formula := some "f3+1" }),
   ("f3", .obj { formula := some "f2+1" }),
   ("f2", .obj { formula := some "f1+1" }),
   ("f1", .obj { formula := some "f0+1" }),
   ("f0", .obj { formula := some "1" })]

/-- A random stream whose first 49 draws pick index 0 and whose 50th picks
index 1 (for a two-element `values` list). -/
def rng49 : RandSrc where
  val := fun n => if n < 49 then 0 else 1 / 2
  lo := by intro n; dsimp only; split <;> norm_num
  hi := by intro n; dsimp only; split <;> norm_num

/-- An enumerated constraint whose first candidate is excluded. -/
def cexSpec : ConstraintSpec := { values := some [1, 2], exclude := [.num 1] }

/-- A small well-formed template used by witnesses. -/
def demoDefs : VarDefs :=
  [("a", .obj { min := some 2, max := some 2 }),
   ("b", .obj { min := some 3, max := some 3 }),
   ("c", .obj { formula := some "a+b" })]

/-! ## Lemmas about the embedded object model -/

namespace StrMap

theorem get?_set {α : Type} (m : StrMap α) (k : String) (v : α) :
    (m.set k v).get? k = some v := by
  induction m with
  | nil => simp [set, get?]
  | cons p t ih =>
      obtain ⟨k0, v0⟩ := p
      by_cases h : k0 = k <;> simp [set, get?, h, ih]

theorem get?_set_ne {α : Type} (m : StrMap α) (k k' : String) (v : α)
    (h : k' ≠ k) : (m.set k v).get? k' = m.get? k' := by
  have h' : ∀ hh : k = k', False := fun hh => h hh.symm
  induction m with
  | nil =>
      simp only [set, get?]
      rw [if_neg h']
  | cons p t ih =>
      obtain ⟨k0, v0⟩ := p
      by_cases hp : k0 = k
      · subst hp
        simp only [set, if_pos rfl, get?]
        rw [if_neg h', if_neg h']

      · simp only [set, if_neg hp, get?]
        by_cases hk0 : k0 = k'
        · rw [if_pos hk0, if_pos hk0]
        · rw [if_neg hk0, if_neg hk0]
          exact ih

theorem mem_keys_set {α : Type} (m : StrMap α) (k k' : String) (v : α) :
    k' ∈ (m.set k v).keys ↔ k' = k ∨ k' ∈ m.keys := by
  induction m with
  | nil => simp [set, keys]
  | cons p t ih =>
      obtain ⟨k0, v0⟩ := p
      by_cases hp : k0 = k <;> simp [set, keys, hp] at ih ⊢
      tauto

theorem isSome_get?_set {α : Type} (m : StrMap α) (k k' : String) (v : α)
    (h : (m.get? k').isSome) : ((m.set k v).get? k').isSome := by
  by_cases hk : k' = k
  · subst hk; rw [get?_set]; rfl
  · rwa [get?_set_ne _ _ _ _ hk]

theorem not_mem_keys_eraseKey {α : Type} (m : StrMap α) (k : String) :
    k ∉ (m.eraseKey k).keys := by
  intro h
  simp only [eraseKey, keys, List.mem_map] at h
  obtain ⟨p, hp, hpk⟩ := h
  rcases List.mem_filter.mp hp with ⟨-, hne⟩
  simp [hpk] at hne

theorem eraseKey_of_not_mem {α : Type} (m : StrMap α) (k : String)
    (h : k ∉ m.keys) : m.eraseKey k = m := by
  apply List.filter_eq_self.mpr
  intro p hp
  have : p.1 ≠ k := by
    intro hk
    exact h (by
      simp only [keys, List.mem_map]
      exact ⟨p, hp, hk⟩)
  simpa using this

theorem get?_isSome_of_mem_keys {α : Type} (m : StrMap α) (k : String)
    (h : k ∈ m.keys) : (m.get? k).isSome := by
  induction m with
  | nil => simp [keys] at h
  | cons p t ih =>
      obtain ⟨k0, v0⟩ := p
      simp only [keys, List.map_cons, List.mem_cons] at h
      by_cases hp : k0 = k
      · simp [get?, hp]
      · simp only [get?, if_neg hp]
        exact ih (h.resolve_left fun hh => hp hh.symm)

theorem mem_keys_of_get?_isSome {α : Type} (m : StrMap α) (k : String)
    (h : (m.get? k).isSome) : k ∈ m.keys := by
  induction m with
  | nil => simp [get?] at h
  | cons p t ih =>
      obtain ⟨k0, v0⟩ := p
      by_cases hp : k0 = k
      · simp [keys, hp]
      · simp only [get?, if_neg hp] at h
        simp only [keys, List.map_cons, List.mem_cons]
        exact .inr (ih h)

theorem get?_eraseKey_ne {α : Type} (m : StrMap α) (k k0 : String)
    (h : k ≠ k0) : (m.eraseKey k0).get? k = m.get? k := by
  induction m with
  | nil => rfl
  | cons p t ih =>
      obtain ⟨k1, v1⟩ := p
      simp only [eraseKey] at ih ⊢
      rw [List.filter_cons]
      by_cases h1 : k1 = k0
      · subst h1
        have hne : ¬(k1 = k) := fun hh => h hh.symm
        have hc : (decide ¬(k1, v1).1 = k1) = false := by simp
        rw [hc]
        simp only [Bool.false_eq_true, if_false, ih, get?, if_neg hne]
      · have hc : (decide ¬(k1, v1).1 = k0) = true := by simp [h1]
        rw [hc]
        simp only [if_true]
        simp only [get?]
        by_cases h2 : k1 = k
        · rw [if_pos h2, if_pos h2]
        · rw [if_neg h2, if_neg h2]
          exact ih

theorem mem_keys_eraseKey_of_ne {α : Type} (m : StrMap α) (k k0 : String)
    (hne : k ≠ k0) (h : k ∈ m.keys) : k ∈ (m.eraseKey k0).keys := by
  apply mem_keys_of_get?_isSome
  rw [get?_eraseKey_ne m k k0 hne]
  exact get?_isSome_of_mem_keys m k h

end StrMap

/-- The sentinel fold of pass 2 only writes keys from its list. -/
theorem foldl_setNan_keys_subset (ks : List String) (v : Scope) (k : String)
    (h : k ∈ (ks.foldl (fun m kk => StrMap.set m kk (some JSNum.nan)) v).keys) :
    k ∈ v.keys ∨ k ∈ ks := by
  induction ks generalizing v with
  | nil => exact .inl h
  | cons a t ih =>
      rcases ih _ h with h' | h'
      · rcases (StrMap.mem_keys_set v a k _).mp h' with h'' | h''
        · exact .inr (by simp [h''])
        · exact .inl h''
      · exact .inr (by simp [h'])

/-- One pass-2 iteration only writes keys from its pending list. -/
theorem formulaPass_keys_subset (ext : Ext) (defs : VarDefs) :
    ∀ (keys : List String) (vars : Scope) (res : List String) (k : String),
      k ∈ ((formulaPass ext defs keys vars res).1).keys →
      k ∈ vars.keys ∨ k ∈ keys := by
  intro keys
  induction keys with
  | nil => intro vars res k h; exact .inl h
  | cons a t ih =>
      intro vars res k h
      simp only [formulaPass] at h
      split at h
      · rcases ih _ _ _ h with h' | h'
        · exact .inl h'
        · exact .inr (by simp [h'])
      · split at h
        · rcases ih _ _ _ h with h' | h'
          · exact .inl h'
          · exact .inr (by simp [h'])
        · split at h
          · rcases ih _ _ _ h with h' | h'
            · exact .inl h'
            · exact .inr (by simp [h'])
          · rcases ih _ _ _ h with h' | h'
            · rcases (StrMap.mem_keys_set vars a k _).mp h' with h'' | h''
              · exact .inr (by simp [h''])
              · exact .inl h''
            · exact .inr (by simp [h'])

/-- Pass 2 only writes keys from its pending list. -/
theorem resolveFormulas_keys_subset (ext : Ext) (defs : VarDefs) :
    ∀ (fuel : ℕ) (keys : List String) (vars : Scope) (k : String),
      k ∈ (resolveFormulas ext defs fuel keys vars).keys →
      k ∈ vars.keys ∨ k ∈ keys := by
  intro fuel
  induction fuel with
  | zero =>
      intro keys vars k h
      cases keys with
      | nil => exact .inl h
      | cons a t => exact .inl h
  | succ fuel ih =>
      intro keys vars k h
      cases keys with
      | nil => exact .inl h
      | cons a t =>
          simp only [resolveFormulas] at h
          split at h
          · rcases foldl_setNan_keys_subset _ _ _ h with h' | h'
            · exact formulaPass_keys_subset ext defs _ _ _ _ h'
            · exact .inr (List.mem_of_mem_filter h')
          · rcases ih _ _ _ h with h' | h'
            · exact formulaPass_keys_subset ext defs _ _ _ _ h'
            · exact .inr (List.mem_of_mem_filter h')

/-- Pass 1 only writes keys that are declared in the template. -/
theorem pass1_keys_subset (r : RandSrc) :
    ∀ (l : List (String × VarDef)) (vars : Scope) (i : ℕ) (k : String),
      k ∈ ((pass1 r l vars i).1).keys →
      k ∈ vars.keys ∨ k ∈ l.map (·.1) := by
  intro l
  induction l with
  | nil => intro vars i k h; exact .inl h
  | cons p t ih =>
      intro vars i k h
      obtain ⟨k0, c⟩ := p
      cases c with
      | num v =>
          rcases ih _ _ _ h with h' | h'
          · rcases (StrMap.mem_keys_set vars k0 k _).mp h' with h'' | h''
            · exact .inr (by simp [h''])
            · exact .inl h''
          · exact .inr (by simp [h'])
      | null =>
          rcases ih _ _ _ h with h' | h'
          · exact .inl h'
          · exact .inr (by simp [h'])
      | obj spec =>
          simp only [pass1] at h
          by_cases hf : (VarDef.obj spec).isFormula
          · rw [if_pos hf] at h
            rcases ih _ _ _ h with h' | h'
            · exact .inl h'
            · exact .inr (by simp [h'])
          · rw [if_neg hf] at h
            rcases ih _ _ _ h with h' | h'
            · rcases (StrMap.mem_keys_set vars k0 k _).mp h' with h'' | h''
              · exact .inr (by simp [h''])
              · exact .inl h''
            · exact .inr (by simp [h'])

/-- One pass-2 iteration never removes keys from the scope. -/
theorem formulaPass_keys_mono (ext : Ext) (defs : VarDefs) :
    ∀ (keys : List String) (vars : Scope) (res : List String) (k : String),
      k ∈ vars.keys → k ∈ ((formulaPass ext defs keys vars res).1).keys := by
  intro keys
  induction keys with
  | nil => intro vars res k h; exact h
  | cons a t ih =>
      intro vars res k h
      simp only [formulaPass]
      split
      · exact ih _ _ _ h
      · split
        · exact ih _ _ _ h
        · split
          · exact ih _ _ _ h
          · exact ih _ _ _ ((StrMap.mem_keys_set vars a k _).mpr (.inr h))

/-- Unfolding `formulaPass` over a key without a formula. -/
theorem formulaPass_skip (ext : Ext) (defs : VarDefs) (a : String)
    (t : List String) (vars : Scope) (res : List String)
    (h : formulaOf defs a = none) :
    formulaPass ext defs (a :: t) vars res = formulaPass ext defs t vars res := by
  simp only [formulaPass, h]

/-- Unfolding `formulaPass` over a formula whose evaluation throws. -/
theorem formulaPass_err (ext : Ext) (defs : VarDefs) (a : String)
    (t : List String) (vars : Scope) (res : List String) (f : String)
    (e : JsErr) (hf : formulaOf defs a = some f)
    (he : evaluateJSExpression ext f vars = .error e) :
    formulaPass ext defs (a :: t) vars res = formulaPass ext defs t vars res := by
  simp only [formulaPass, hf, he]

/-- Unfolding `formulaPass` over a formula that evaluates. -/
theorem formulaPass_ok (ext : Ext) (defs : VarDefs) (a : String)
    (t : List String) (vars : Scope) (res : List String) (f : String)
    (raw : JSVal) (hf : formulaOf defs a = some f)
    (he : evaluateJSExpression ext f vars = .ok raw) :
    formulaPass ext defs (a :: t) vars res =
      if (toNumber raw).isNaN then formulaPass ext defs t vars res
      else formulaPass ext defs t (vars.set a (some (toNumber raw)))
        (a :: res) := by
  simp only [formulaPass, hf, he]

/-- The keys reported resolved by one pass-2 iteration come from the seed
list or the pending list. -/
theorem formulaPass_resolved_subset (ext : Ext) (defs : VarDefs) :
    ∀ (keys : List String) (vars : Scope) (res : List String) (k : String),
      k ∈ (formulaPass ext defs keys vars res).2 →
      k ∈ res ∨ k ∈ keys := by
  intro keys
  induction keys with
  | nil =>
      intro vars res k h
      simp only [formulaPass] at h
      exact .inl (List.mem_reverse.mp h)
  | cons a t ih =>
      intro vars res k h
      simp only [formulaPass] at h
      split at h
      · rcases ih _ _ _ h with h' | h'
        · exact .inl h'
        · exact .inr (by simp [h'])
      · split at h
        · rcases ih _ _ _ h with h' | h'
          · exact .inl h'
          · exact .inr (by simp [h'])
        · split at h
          · rcases ih _ _ _ h with h' | h'
            · exact .inl h'
            · exact .inr (by simp [h'])
          · rcases ih _ _ _ h with h' | h'
            · rcases List.mem_cons.mp h' with h'' | h''
              · exact .inr (by simp [h''])
              · exact .inl h''
            · exact .inr (by simp [h'])

/-- Every key reported resolved by one pass-2 iteration was written to the
resulting scope (unless it came from the seed list). -/
theorem formulaPass_resolved_assigned (ext : Ext) (defs : VarDefs) :
    ∀ (keys : List String) (vars : Scope) (res : List String) (k : String),
      k ∈ (formulaPass ext defs keys vars res).2 →
      k ∈ res ∨ k ∈ ((formulaPass ext defs keys vars res).1).keys := by
  intro keys
  induction keys with
  | nil =>
      intro vars res k h
      simp only [formulaPass] at h
      exact .inl (List.mem_reverse.mp h)
  | cons a t ih =>
      intro vars res k h
      rcases hf : formulaOf defs a with _ | f
      · rw [formulaPass_skip ext defs a t vars res hf] at h ⊢
        exact ih _ _ _ h
      · rcases he : evaluateJSExpression ext f vars with e | raw
        · rw [formulaPass_err ext defs a t vars res f e hf he] at h ⊢
          exact ih _ _ _ h
        · rw [formulaPass_ok ext defs a t vars res f raw hf he] at h ⊢
          by_cases hn : (toNumber raw).isNaN
          · rw [if_pos hn] at h ⊢
            exact ih _ _ _ h
          · rw [if_neg hn] at h ⊢
            rcases ih _ _ _ h with h' | h'
            · rcases List.mem_cons.mp h' with h'' | h''
              · subst h''
                exact .inr (formulaPass_keys_mono ext defs _ _ _ _
                  ((StrMap.mem_keys_set vars k k _).mpr (.inl rfl)))
              · exact .inl h''
            · exact .inr h'

/-- One-step unfolding of pass 2 with the iteration's outcome given. -/
theorem resolveFormulas_step (ext : Ext) (defs : VarDefs) (fuel : ℕ)
    (k0 : String) (t : List String) (vars vars' : Scope)
    (resolved : List String)
    (hfp : formulaPass ext defs (k0 :: t) vars [] = (vars', resolved)) :
    resolveFormulas ext defs (fuel + 1) (k0 :: t) vars =
      (if resolved.isEmpty &&
          !(((k0 :: t).filter (fun k => !resolved.contains k)).isEmpty) then
        ((k0 :: t).filter (fun k => !resolved.contains k)).foldl
          (fun v k => v.set k (some .nan)) vars'
       else
        resolveFormulas ext defs fuel
          ((k0 :: t).filter (fun k => !resolved.contains k)) vars') := by
  rw [resolveFormulas, hfp]
  exact List.cons_ne_nil k0 t

/-- The sentinel fold writes every key of its list (and keeps old keys). -/
theorem foldl_setNan_mem (ks : List String) (v : Scope) (k : String)
    (h : k ∈ v.keys ∨ k ∈ ks) :
    k ∈ (ks.foldl (fun m kk => StrMap.set m kk (some JSNum.nan)) v).keys := by
  induction ks generalizing v with
  | nil => exact h.resolve_right (by simp)
  | cons a t ih =>
      rcases h with h | h
      · exact ih _ (.inl ((StrMap.mem_keys_set v a k _).mpr (.inr h)))
      · rcases List.mem_cons.mp h with h' | h'
        · subst h'
          exact ih _ (.inl ((StrMap.mem_keys_set v k k _).mpr (.inl rfl)))
        · exact ih _ (.inr h')

/-- Pass 2 never removes keys from the scope. -/
theorem resolveFormulas_keys_mono (ext : Ext) (defs : VarDefs) :
    ∀ (fuel : ℕ) (keys : List String) (vars : Scope) (k : String),
      k ∈ vars.keys → k ∈ (resolveFormulas ext defs fuel keys vars).keys := by
  intro fuel
  induction fuel with
  | zero =>
      intro keys vars k h
      cases keys with
      | nil => exact h
      | cons a t => exact h
  | succ fuel ih =>
      intro keys vars k h
      cases keys with
      | nil => exact h
      | cons a t =>
          rcases hfp : formulaPass ext defs (a :: t) vars [] with ⟨vars', resolved⟩
          rw [resolveFormulas_step ext defs fuel a t vars vars' resolved hfp]
          have hv' : k ∈ vars'.keys := by
            have hm := formulaPass_keys_mono ext defs (a :: t) vars [] k h
            rw [hfp] at hm
            exact hm
          split
          · exact foldl_setNan_mem _ _ _ (.inl hv')
          · exact ih _ _ _ hv'

/-- With fuel at least the number of pending keys, pass 2 leaves every
pending key present in the scope — resolved, or forced to the sentinel. -/
theorem resolveFormulas_covers (ext : Ext) (defs : VarDefs) :
    ∀ (fuel : ℕ) (keys : List String) (vars : Scope),
      keys.length ≤ fuel → ∀ k, k ∈ keys →
      k ∈ (resolveFormulas ext defs fuel keys vars).keys := by
  intro fuel
  induction fuel with
  | zero =>
      intro keys vars hlen k hk
      rw [List.length_eq_zero.mp (Nat.le_zero.mp hlen)] at hk
      cases hk
  | succ fuel ih =>
      intro keys vars hlen k hk
      cases keys with
      | nil => cases hk
      | cons a t =>
          rcases hfp : formulaPass ext defs (a :: t) vars [] with ⟨vars', resolved⟩
          rw [resolveFormulas_step ext defs fuel a t vars vars' resolved hfp]
          by_cases hres : resolved = []
          · subst hres
            have hkeys' : (a :: t).filter
                (fun k => !(List.contains ([] : List String) k)) = a :: t :=
              List.filter_eq_self.mpr (fun x _ => rfl)
            rw [hkeys']
            rw [if_pos (show (List.isEmpty ([] : List String) &&
              !List.isEmpty (a :: t)) = true from rfl)]
            exact foldl_setNan_mem _ _ _ (.inr hk)
          · have hie : resolved.isEmpty = false := by
              cases resolved with
              | nil => exact absurd rfl hres
              | cons x xs => rfl
            rw [hie]
            rw [if_neg (by simp)]
            by_cases hkres : k ∈ resolved
            · have h1 : k ∈ vars'.keys := by
                have hm := formulaPass_resolved_assigned ext defs (a :: t)
                  vars [] k (by rw [hfp]; exact hkres)
                rw [hfp] at hm
                exact hm.resolve_left (by simp)
              exact resolveFormulas_keys_mono ext defs fuel _ _ _ h1
            · have hcont : resolved.contains k = false := by
                rw [← Bool.not_eq_true]
                intro hc
                exact hkres (List.elem_iff.mp hc)
              have hk' : k ∈ (a :: t).filter (fun k => !resolved.contains k) :=
                List.mem_filter.mpr ⟨hk, by rw [hcont]; rfl⟩
              have hlen' :
                  ((a :: t).filter (fun k => !resolved.contains k)).length ≤
                    fuel := by
                obtain ⟨k1, hk1⟩ : ∃ x, x ∈ resolved := by
                  cases resolved with
                  | nil => exact absurd rfl hres
                  | cons x xs => exact ⟨x, by simp⟩
                have hk1keys : k1 ∈ a :: t := by
                  have h3 := formulaPass_resolved_subset ext defs (a :: t)
                    vars [] k1 (by rw [hfp]; exact hk1)
                  exact h3.resolve_left (by simp)
                have hstrict :
                    ((a :: t).filter (fun k => !resolved.contains k)).length <
                      (a :: t).length := by
                  rcases Nat.lt_or_ge
                    ((a :: t).filter (fun k => !resolved.contains k)).length
                    (a :: t).length with hlt | hge
                  · exact hlt
                  · exfalso
                    have heq :
                        ((a :: t).filter
                          (fun k => !resolved.contains k)).length =
                          (a :: t).length :=
                      Nat.le_antisymm (List.length_filter_le _ _) hge
                    have hall := List.filter_length_eq_length.mp heq k1 hk1keys
                    have hc1 : resolved.contains k1 = true :=
                      List.elem_iff.mpr hk1
                    rw [hc1] at hall
                    exact Bool.false_ne_true hall
                have hlen2 : (a :: t).length ≤ fuel + 1 := hlen
                omega
              exact ih _ _ hlen' k hk'

/-- Pass 1 never removes keys from the scope. -/
theorem pass1_keys_mono (r : RandSrc) :
    ∀ (l : List (String × VarDef)) (vars : Scope) (i : ℕ) (k : String),
      k ∈ vars.keys → k ∈ ((pass1 r l vars i).1).keys := by
  intro l
  induction l with
  | nil => intro vars i k h; exact h
  | cons p t ih =>
      intro vars i k h
      obtain ⟨k0, c⟩ := p
      cases c with
      | num v => exact ih _ _ _ ((StrMap.mem_keys_set vars k0 k _).mpr (.inr h))
      | null => exact ih _ _ _ h
      | obj spec =>
          simp only [pass1]
          by_cases hf : (VarDef.obj spec).isFormula
          · rw [if_pos hf]
            exact ih _ _ _ h
          · rw [if_neg hf]
            exact ih _ _ _ ((StrMap.mem_keys_set vars k0 k _).mpr (.inr h))

/-- Pass 1 writes every literal-number key and every non-formula constraint
key. -/
theorem pass1_assigns (r : RandSrc) :
    ∀ (l : List (String × VarDef)) (vars : Scope) (i : ℕ) (k : String)
      (c : VarDef), (k, c) ∈ l → c ≠ .null → c.isFormula = false →
      k ∈ ((pass1 r l vars i).1).keys := by
  intro l
  induction l with
  | nil => intro vars i k c h _ _; cases h
  | cons p t ih =>
      intro vars i k c h hc hcf
      obtain ⟨k0, c0⟩ := p
      rcases List.mem_cons.mp h with h' | h'
      · cases h'
        cases c with
        | num v =>
            exact pass1_keys_mono r t _ _ k
              ((StrMap.mem_keys_set vars k k _).mpr (.inl rfl))
        | null => exact absurd rfl hc
        | obj spec =>
            simp only [pass1]
            rw [if_neg (by simp [hcf])]
            exact pass1_keys_mono r t _ _ k
              ((StrMap.mem_keys_set vars k k _).mpr (.inl rfl))
      · cases c0 with
        | num v => exact ih _ _ _ _ h' hc hcf
        | null => exact ih _ _ _ _ h' hc hcf
        | obj spec =>
            simp only [pass1]
            by_cases hf : (VarDef.obj spec).isFormula
            · rw [if_pos hf]
              exact ih _ _ _ _ h' hc hcf
            · rw [if_neg hf]
              exact ih _ _ _ _ h' hc hcf

/-- The display loop leaves keys it does not visit untouched. -/
theorem buildDisplay_get?_not_mem (ext : Ext) (vars : Scope) :
    ∀ (l : List (String × VarDef)) (disp : StrMap String) (k : String),
      k ∉ l.map (·.1) →
      (buildDisplay ext vars l disp).get? k = disp.get? k := by
  intro l
  induction l with
  | nil => intro disp k _; rfl
  | cons p t ih =>
      intro disp k hk
      obtain ⟨k0, c0⟩ := p
      have hk0 : k ≠ k0 := fun h => hk (by simp [h])
      have hkt : k ∉ t.map (·.1) := fun h => hk (by simp [h])
      show (buildDisplay ext vars t
        (disp.set k0 (displayEntry ext vars k0 c0))).get? k = _
      rw [ih _ _ hkt, StrMap.get?_set_ne disp k0 k _ hk0]

/-- With unique template keys, the display loop writes exactly the entry
computed for each declared key. -/
theorem buildDisplay_get? (ext : Ext) (vars : Scope) :
    ∀ (l : List (String × VarDef)) (disp : StrMap String) (k : String)
      (c : VarDef), (l.map (·.1)).Nodup → (k, c) ∈ l →
      (buildDisplay ext vars l disp).get? k =
        some (displayEntry ext vars k c) := by
  intro l
  induction l with
  | nil => intro disp k c _ h; cases h
  | cons p t ih =>
      intro disp k c hnd h
      obtain ⟨k0, c0⟩ := p
      have hnd2 : (k0 :: t.map (·.1)).Nodup := by simpa using hnd
      obtain ⟨hnotin, hndt⟩ := List.nodup_cons.mp hnd2
      rcases List.mem_cons.mp h with h' | h'
      · cases h'
        show (buildDisplay ext vars t
          (disp.set k (displayEntry ext vars k c))).get? k = _
        rw [buildDisplay_get?_not_mem ext vars t _ k hnotin, StrMap.get?_set]
      · show (buildDisplay ext vars t
          (disp.set k0 (displayEntry ext vars k0 c0))).get? k = _
        exact ih _ _ _ hndt h'

/-- A successful `[^}]+`-and-`}` scan reconstructs its input. -/
theorem splitUntilBrace_reconstruct :
    ∀ (s acc g r : List Char), splitUntilBrace acc s = some (g, r) →
      acc.reverse ++ s = g ++ '}' :: r := by
  intro s
  induction s with
  | nil => intro acc g r h; simp [splitUntilBrace] at h
  | cons c t ih =>
      intro acc g r h
      simp only [splitUntilBrace] at h
      by_cases hc : c = '}'
      · subst hc
        rw [if_pos rfl] at h
        by_cases ha : acc.isEmpty
        · rw [if_pos ha] at h; cases h
        · rw [if_neg ha] at h
          cases h
          rfl
      · rw [if_neg hc] at h
        simpa using ih (c :: acc) g r h

/-- `readFmtName` splits its input into the name run and the rest. -/
theorem readFmtName_reconstruct :
    ∀ (s n rest : List Char), readFmtName s = (n, rest) → s = n ++ rest := by
  intro s
  induction s with
  | nil => intro n rest h; cases h; rfl
  | cons c t ih =>
      intro n rest h
      simp only [readFmtName] at h
      by_cases hc : isFmtNameChar c
      · rw [if_pos hc] at h
        cases h
        exact congrArg (List.cons c) (ih _ _ rfl)
      · rw [if_neg hc] at h
        cases h
        rfl

/-- A placeholder match after `{` reconstructs the matched characters. -/
theorem matchFmtAt_reconstruct (s n : List Char) (opts : Option (List Char))
    (rest : List Char) (h : matchFmtAt s = some (n, opts, rest)) :
    s = n ++ opts.getD [] ++ '}' :: rest := by
  cases s with
  | nil => cases h
  | cons c t =>
      simp only [matchFmtAt] at h
      split at h
      case isFalse hstart => cases h
      case isTrue hstart =>
        split at h
        case _ r0 r heq =>
          have ht : t = (readFmtName t).1 ++ (r0 :: r) := by
            have h' := readFmtName_reconstruct t (readFmtName t).1 (readFmtName t).2 rfl
            rwa [heq] at h'
          split at h
          case isTrue hr0 =>
            cases h
            subst hr0
            conv_lhs => rw [ht]
            simp
          case isFalse hr0 =>
            split at h
            case isFalse hr0' => cases h
            case isTrue hr0' =>
              rcases hsb0 : splitUntilBrace [] (r0 :: r) with _ | ⟨o, rest2⟩
              · simp only [hsb0] at h
                cases h
              · simp only [hsb0] at h
                cases h
                have hsb := splitUntilBrace_reconstruct (r0 :: r) [] o rest hsb0
                simp only [List.reverse_nil, List.nil_append] at hsb
                conv_lhs => rw [ht, hsb]
                simp
        case _ heq => cases h

/-- Flattening singleton lists is the identity. -/
theorem flatten_singletons (s : List Char) :
    (s.map (fun c => [c])).flatten = s := by
  induction s with
  | nil => rfl
  | cons c t ih => simp [ih]

/-- The placeholder decomposition reconstructs the original text. -/
theorem fmtSplit_raw_join :
    ∀ (fuel : ℕ) (s : List Char),
      ((fmtSplit fuel s).map (fun p => (fmtPieceRaw p).data)).flatten = s := by
  intro fuel
  induction fuel with
  | zero =>
      intro s
      simp only [fmtSplit, List.map_map]
      simpa [Function.comp, fmtPieceRaw] using flatten_singletons s
  | succ fuel ih =>
      intro s
      cases s with
      | nil => rfl
      | cons c t =>
          simp only [fmtSplit]
          by_cases hc : c = '{'
          · rw [if_pos hc]
            subst hc
            rcases hm : matchFmtAt t with _ | ⟨n, opts, rest⟩
            · simp only [hm, List.map_cons, List.flatten_cons, ih t]
              rfl
            · have hrec := matchFmtAt_reconstruct t n opts rest hm
              simp only [hm, List.map_cons, List.flatten_cons, ih rest]
              rw [hrec]
              cases opts with
              | none =>
                  simp [fmtPieceRaw, String.data_append]
              | some o =>
                  simp [fmtPieceRaw, String.data_append]
          · rw [if_neg hc]
            simp only [List.map_cons, List.flatten_cons, ih t]
            rfl

/-- When every matched placeholder's variable is absent (or `undefined`), the
replacement callback is the identity on every piece. -/
theorem mapM_fmtCallback_raw (ext : Ext) (vars : Scope) :
    ∀ pieces : List FmtPiece,
      (∀ whole name opts, FmtPiece.ph whole name opts ∈ pieces →
        vars.get? name = none ∨ vars.get? name = some none) →
      pieces.mapM (fmtCallback ext vars) = .ok (pieces.map fmtPieceRaw) := by
  intro pieces
  induction pieces with
  | nil => intro _; rfl
  | cons p t ih =>
      intro h
      have hp : fmtCallback ext vars p = .ok (fmtPieceRaw p) := by
        cases p with
        | lit c => rfl
        | ph whole name opts =>
            rcases h whole name opts (by simp) with h' | h' <;>
              simp [fmtCallback, h', fmtPieceRaw]
      rw [List.mapM_cons, hp, ih (fun w nn o hm => h w nn o (by simp [hm]))]
      rfl

/-- One draw advances the stream index by one exactly when it consumes a
random value. -/
theorem drawOnce_snd (spec : ConstraintSpec) (r : RandSrc) (i : ℕ) :
    (drawOnce spec r i).2 = advance spec i 1 := by
  unfold drawOnce advance drawConsumes
  rcases hv : spec.values with _ | vs
  · rcases hm : spec.min with _ | lo <;> rcases hM : spec.max with _ | hi <;>
      simp
  · simp

/-- A non-consuming draw (default fallback) yields the same value at every
stream index. -/
theorem drawOnce_fst_nonconsuming (spec : ConstraintSpec) (r : RandSrc)
    (h : drawConsumes spec = false) (i i' : ℕ) :
    (drawOnce spec r i).1 = (drawOnce spec r i').1 := by
  unfold drawConsumes at h
  unfold drawOnce
  rcases hv : spec.values with _ | vs
  · rcases hm : spec.min with _ | lo <;> rcases hM : spec.max with _ | hi <;>
      simp [hv, hm, hM] at h ⊢
  · simp [hv] at h

/-- Shifting the start index by one draw shifts the draw sequence. -/
theorem drawAt_shift (spec : ConstraintSpec) (r : RandSrc) (i j : ℕ) :
    drawAt spec r ((drawOnce spec r i).2) j = drawAt spec r i (j + 1) := by
  rw [drawOnce_snd]
  unfold advance drawAt
  by_cases hc : drawConsumes spec
  · rw [if_pos hc, show i + 1 + j = i + (j + 1) by omega]
  · rw [if_neg hc]
    exact drawOnce_fst_nonconsuming spec r (by simpa using hc) _ _

/-- Advancing after one draw composes. -/
theorem advance_shift (spec : ConstraintSpec) (i k : ℕ) :
    advance spec (advance spec i 1) k = advance spec i (k + 1) := by
  unfold advance
  by_cases hc : drawConsumes spec <;> simp [hc]
  omega

/-- A successful first-valid-index search points inside the bound at a draw
that satisfies the exclusion list. -/
theorem firstValidIdx_some (spec : ConstraintSpec) (vars : Scope)
    (r : RandSrc) :
    ∀ (b i j : ℕ), firstValidIdx spec vars r i b = some j →
      j < b ∧ validateVariableValue (drawAt spec r i j) spec vars = true := by
  intro b
  induction b with
  | zero => intro i j h; cases h
  | succ b ih =>
      intro i j h
      simp only [firstValidIdx] at h
      by_cases hv : validateVariableValue (drawOnce spec r i).1 spec vars
      · rw [if_pos hv] at h
        cases h
        refine ⟨Nat.succ_pos b, ?_⟩
        simpa [drawAt] using hv
      · rw [if_neg hv] at h
        rcases hmap : firstValidIdx spec vars r (drawOnce spec r i).2 b
          with _ | j'
        · rw [hmap] at h; cases h
        · rw [hmap] at h
          simp only [Option.map_some'] at h
          cases h
          obtain ⟨hlt, hval⟩ := ih _ _ hmap
          refine ⟨by omega, ?_⟩
          rwa [drawAt_shift] at hval

/-- One-step unfolding of `genLoop` with the draw result named. -/
theorem genLoop_eq (spec : ConstraintSpec) (vars : Scope) (r : RandSrc)
    (fuel attempts i : ℕ) (v : Option JSNum) (i' : ℕ)
    (hd : drawOnce spec r i = (v, i')) :
    genLoop spec vars r fuel attempts i =
      if !validateVariableValue v spec vars && decide (attempts + 1 < 50) then
        match fuel with
        | 0 => (v, attempts + 1, i')
        | fuel' + 1 => genLoop spec vars r fuel' (attempts + 1) i'
      else (v, attempts + 1, i') := by
  rw [genLoop, hd]

/-- One-step unfolding of `firstValidIdx` with the draw result named. -/
theorem firstValidIdx_eq (spec : ConstraintSpec) (vars : Scope) (r : RandSrc)
    (i b : ℕ) (v : Option JSNum) (i' : ℕ)
    (hd : drawOnce spec r i = (v, i')) :
    firstValidIdx spec vars r i (b + 1) =
      if validateVariableValue v spec vars then some 0
      else (firstValidIdx spec vars r i' b).map (· + 1) := by
  rw [firstValidIdx, hd]

/-- Closed form of the `do … while` draw loop, started with `a` attempts
already consumed and `fb + 1` fuel remaining (`a + fb + 1 = 50`): the loop
returns the first satisfying draw within the remaining bound, or the last
drawn value with the attempt counter saturated at 50. -/
theorem genLoop_char (spec : ConstraintSpec) (vars : Scope) (r : RandSrc) :
    ∀ (fb a i : ℕ), a + fb + 1 = 50 →
      genLoop spec vars r (fb + 1) a i =
        match firstValidIdx spec vars r i fb with
        | some j => (drawAt spec r i j, a + j + 1, advance spec i (j + 1))
        | none => (drawAt spec r i fb, 50, advance spec i (fb + 1)) := by
  intro fb
  induction fb with
  | zero =>
      intro a i h
      have ha : a = 49 := by omega
      subst ha
      rcases hd : drawOnce spec r i with ⟨v, i'⟩
      have hadv : i' = advance spec i 1 := by
        rw [← drawOnce_snd spec r i, hd]
      have hv0 : drawAt spec r i 0 = v := by
        unfold drawAt
        rw [show i + 0 = i from rfl, hd]
      rw [genLoop_eq spec vars r 1 49 i v i' hd]
      have hcond :
          (!validateVariableValue v spec vars && decide (49 + 1 < 50)) = false := by
        simp
      rw [hcond]
      simp only [firstValidIdx, Bool.false_eq_true, if_false, hv0, hadv]
  | succ fb ih =>
      intro a i h
      rcases hd : drawOnce spec r i with ⟨v, i'⟩
      have hsnd : i' = (drawOnce spec r i).2 := by rw [hd]
      have hadv : i' = advance spec i 1 := by
        rw [← drawOnce_snd spec r i, hd]
      have hv0 : drawAt spec r i 0 = v := by
        unfold drawAt
        rw [show i + 0 = i from rfl, hd]
      have hshift : ∀ j, drawAt spec r i' j = drawAt spec r i (j + 1) := by
        intro j; rw [hsnd, drawAt_shift]
      have hadv2 : ∀ k, advance spec i' k = advance spec i (k + 1) := by
        intro k; rw [hadv, advance_shift]
      rw [genLoop_eq spec vars r (fb + 1 + 1) a i v i' hd,
        firstValidIdx_eq spec vars r i fb v i' hd]
      by_cases hval : validateVariableValue v spec vars
      · have hcond :
            (!validateVariableValue v spec vars && decide (a + 1 < 50)) = false := by
          simp [hval]
        rw [hcond, if_pos hval]
        simp only [Bool.false_eq_true, if_false, hv0, hadv]
      · have hlt : a + 1 < 50 := by omega
        have hcond :
            (!validateVariableValue v spec vars && decide (a + 1 < 50)) = true := by
          simp [hval, hlt]
        rw [hcond, if_neg hval]
        simp only [if_true]
        rw [ih (a + 1) i' (by omega)]
        rcases firstValidIdx spec vars r i' fb with _ | j
        · simp only [Option.map_none']
          rw [hshift, hadv2]
        · simp only [Option.map_some']
          rw [hshift, hadv2, show a + 1 + j + 1 = a + (j + 1) + 1 by omega]

/-- Every enumerable key of the generated scope is a template variable name. -/
theorem core_keys_subset (ext : Ext) (defs : VarDefs) (r : RandSrc)
    (k : String) (h : k ∈ ((generateQuestionVariablesCore ext defs r).1).keys) :
    k ∈ StrMap.keys defs := by
  simp only [generateQuestionVariablesCore] at h
  rcases resolveFormulas_keys_subset ext defs _ _ _ _ h with h' | h'
  · rcases pass1_keys_subset r defs StrMap.empty 0 k h' with h'' | h''
    · simp [StrMap.empty, StrMap.keys] at h''
    · exact h''
  · simp only [List.mem_map] at h'
    obtain ⟨p, hp, hpk⟩ := h'
    have := List.mem_of_mem_filter hp
    simp only [StrMap.keys, List.mem_map]
    exact ⟨p, this, hpk⟩

/-- With a positive denominator `b`, the canonical numerator and denominator
of the exact rational `a / b` are the pair obtained by cancelling
`Int.gcd a b` — the quantities the step-2 branch of `formatNumberForDisplay`
computes. -/
theorem ratDiv_num_den (a b : ℤ) (hb : 0 < b) :
    ((a : ℚ) / (b : ℚ)).num = a / (Int.gcd a b : ℤ) ∧
    (((a : ℚ) / (b : ℚ)).den : ℤ) = b / (Int.gcd a b : ℤ) := by
  have hbt : ((b.toNat : ℕ) : ℤ) = b := Int.toNat_of_nonneg hb.le
  have hbt0 : b.toNat ≠ 0 := by omega
  have hgcd : a.natAbs.gcd b.toNat = Int.gcd a b := by
    show a.natAbs.gcd b.toNat = a.natAbs.gcd b.natAbs
    congr 1
    omega
  have h1 : (a : ℚ) / (b : ℚ) = Rat.normalize a b.toNat hbt0 := by
    rw [← Rat.divInt_eq_div]
    conv_lhs => rw [← hbt]
    rw [Rat.divInt_ofNat, Rat.mkRat_def, dif_neg hbt0]
  rw [h1, Rat.normalize_eq]
  constructor
  · show a / ((a.natAbs.gcd b.toNat : ℕ) : ℤ) = a / (Int.gcd a b : ℤ)
    rw [hgcd]
  · show ((b.toNat / a.natAbs.gcd b.toNat : ℕ) : ℤ) = b / (Int.gcd a b : ℤ)
    rw [Int.ofNat_ediv, hgcd, hbt]

/-- Taking the absolute value and re-applying the numerator's sign commutes
with exact division by a positive common divisor: the quantity
`Math.abs(n)/g * sign` from the source equals plain `n / g`. -/
theorem abs_ediv_mul_sign (g a : ℤ) (hg : 0 < g) (hdvd : g ∣ a) :
    |a| / g * (if a < 0 then (-1 : ℤ) else 1) = a / g := by
  obtain ⟨c, rfl⟩ := hdvd
  rw [abs_mul, abs_of_pos hg, Int.mul_ediv_cancel_left _ (by omega),
    Int.mul_ediv_cancel_left _ (by omega)]
  by_cases hcneg : c < 0
  · rw [if_pos (mul_neg_of_pos_of_neg hg hcneg), abs_of_neg hcneg]
    ring
  · rw [if_neg (not_lt.mpr (mul_nonneg hg.le (not_lt.mp hcneg))),
      abs_of_nonneg (not_lt.mp hcneg)]
    ring

/-- On the formula string `"a/b"` with scope `{a, b}` and `b ≠ 0`, the
division-detection regex splits at the slash and both sides evaluate to the
integers `a` and `b`. -/
theorem tryParse_ab (ext : Ext) (a b : ℤ) (hb : b ≠ 0) :
    tryParseIntegerDivision ext "a/b" (scopeAB a b) = some (a, b) := by
  have h1 : evaluateJSExpression ext (String.mk (trimChars ['a'])) (scopeAB a b)
      = .ok (.num (.fin ((a : ℤ) : ℚ))) := rfl
  have h2 : evaluateJSExpression ext (String.mk (trimChars ['b'])) (scopeAB a b)
      = .ok (.num (.fin ((b : ℤ) : ℚ))) := rfl
  have hfind : findDivMatch (String.data "a/b") = some (['a'], ['b']) := rfl
  have hbq : ((b : ℤ) : ℚ) ≠ 0 := Int.cast_ne_zero.mpr hb
  simp only [tryParseIntegerDivision]
  rw [if_neg (show ¬("a/b" = "") by decide)]
  simp only [hfind, h1, h2, Rat.den_intCast, Rat.num_intCast]
  simp [hbq]

/-- `toString` on an integer that is a cast natural agrees with `toString`
on the natural itself. -/
theorem toString_int_natCast (n : ℕ) : toString ((n : ℕ) : ℤ) = toString n := rfl

/-- One-step unfolding of `formatNumberForDisplay` at a finite value with a
formula and scope supplied: the match on the optional arguments is reduced,
everything else is the body verbatim. -/
theorem formatNumberForDisplay_finQ (ext : Ext) (q : ℚ) (f : String)
    (vs : Scope) :
    formatNumberForDisplay ext (some (.fin q)) (some f) (some vs) =
      if q.den = 1 then toString q.num
      else
        let step2 : Option String :=
          (tryParseIntegerDivision ext f vs).map (fun (nd : ℤ × ℤ) =>
            let sign : ℤ := if nd.1 < 0 then -1 else 1
            let g := gcd nd.1 nd.2
            let n := |nd.1| / g * sign
            let d := |nd.2| / g
            if d = 1 then toString n
            else fracWrap (jsIntStr n) (toString d))
        match step2 with
        | some s => s
        | none =>
            match ext.radicalFmt (.fin q) with
            | some r => r
            | none =>
                let step4 : Option String :=
                  match approximateFraction q 1000 (1 / 10 ^ 12) with
                  | some (n, d) =>
                      if d ≠ 1 ∧ |(n : ℚ) / (d : ℚ) - q| < 1 / 10 ^ 12 then
                        some (fracWrap (toString n) (toString d))
                      else none
                  | none => none
                match step4 with
                | some s => s
                | none =>
                    let s := toFixed8Stripped q
                    if s = "" then "0" else s := rfl

/-- When the value is a non-integer rational and the source-division regex
splits the formula into integer halves `n / d`, `formatNumberForDisplay`
returns the step-2 string built from `n` and `d` by the sign-and-gcd
computation of part_000 lines 213-228. -/
theorem formatNumberForDisplay_step2_some (ext : Ext) (q : ℚ) (f : String)
    (vs : Scope) (hd : q.den ≠ 1) (n d : ℤ)
    (h : tryParseIntegerDivision ext f vs = some (n, d)) :
    formatNumberForDisplay ext (some (.fin q)) (some f) (some vs) =
      (if |d| / gcd n d = 1 then
        toString (|n| / gcd n d * (if n < 0 then (-1 : ℤ) else 1))
       else
        fracWrap (jsIntStr (|n| / gcd n d * (if n < 0 then (-1 : ℤ) else 1)))
          (toString (|d| / gcd n d))) := by
  rw [formatNumberForDisplay_finQ, if_neg hd, h, Option.map_some']

/-! ## Claims -/

/- `Rat.mul`, `Rat.add`, `Rat.sub` and `Rat.inv` are `@[irreducible]` in core;
unseal them so that concrete rational computations evaluate inside `decide`
and `rfl` proofs. -/
unseal Rat.mul
unseal Rat.add
unseal Rat.sub
unseal Rat.inv

/-- **C1.**  The claim says every expression containing a token outside the
whitelisted grammar fails with a syntax failure and that no input can execute
code beyond arithmetic.  The code (`evaluateJSExpression`, part_000 lines
71-88) applies no token check at all: it hands the raw string to
`new Function`, so the non-whitelisted identifier `Math` evaluates
successfully to the ambient `Math` object instead of failing. -/
theorem c1_nonwhitelisted_token_executes (ext : Ext) :
    "Math" ∉ specWhitelist ∧
    evaluateJSExpression ext "Math" [] = .ok (.obj "Math") :=
  ⟨by decide, rfl⟩

/-- **C2.**  The claim says `evaluate("-2^2") = -4` and
`evaluate("2^3^2") = 512` (right-associative exponentiation).  In
`evaluateJSExpression` the `^` character is JavaScript's bitwise XOR:
`"2^3^2"` evaluates (left-associatively) to `3`, not `512`; `"-2^2"` returns
`-4` only by the coincidence `(-2) XOR 2 = -4`. -/
theorem c2_caret_is_xor_not_exponentiation (ext : Ext) (scope : Scope) :
    evaluateJSExpression ext "2^3^2" scope = .ok (.num (.fin 3)) ∧
    evaluateJSExpression ext "-2^2" scope = .ok (.num (.fin (-4))) ∧
    (3 : ℚ) ≠ 512 :=
  ⟨rfl, rfl, by norm_num⟩

/-- **C3.**  The claim says a zero divisor or non-finite result surfaces as an
evaluation failure and no infinity reaches formatted display output.  In the
code, `1/0` evaluates to `Infinity` without error, and
`evaluateMathExpression` (part_000 lines 352-364) feeds it to
`formatNumberForDisplay`, which stringifies non-finite values — so the
display string `"Infinity"` is returned. -/
theorem c3_division_by_zero_reaches_display (ext : Ext) (vars : Scope) :
    evaluateMathExpression ext "1/0" vars = "Infinity" ∧
    JSNum.div (.fin 1) (.fin 0) = .inf :=
  ⟨rfl, rfl⟩

/-- **C9.**  Variable generation is a pure function of the template and the
injected random stream (the embedding threads the `Math.random` draws as the
only effect): two runs over the same template with the same stream produce
identical numeric scopes. -/
theorem c9_generation_deterministic (ext : Ext) (defs₁ defs₂ : VarDefs)
    (r₁ r₂ : RandSrc) (hdefs : defs₁ = defs₂) (hr : r₁ = r₂) :
    (generateQuestionVariables ext defs₁ r₁).props =
      (generateQuestionVariables ext defs₂ r₂).props := by
  subst hdefs; subst hr; rfl

/-- Witness for C9 at a concrete template and stream. -/
theorem c9_generation_deterministic_witness :
    (generateQuestionVariables extDefault demoDefs randZero).props =
      (generateQuestionVariables extDefault demoDefs randZero).props :=
  c9_generation_deterministic extDefault demoDefs demoDefs randZero randZero
    rfl rfl

/-- **C4, counterexample.**  At `a = 1, b = -2` the claim demands the output
render the reduced fraction `-1/2`; the code (part_000 lines 213-228) takes
the sign from the numerator alone and discards the denominator's sign,
printing `1/2`. -/
theorem c4_counterexample :
    formatNumberForDisplay extDefault (some (.fin ((1 : ℚ) / (-2))))
        (some "a/b") (some (scopeAB 1 (-2))) = fracWrap "1" "2" ∧
    ¬ fractionClaim 1 (-2)
        (formatNumberForDisplay extDefault (some (.fin ((1 : ℚ) / (-2))))
          (some "a/b") (some (scopeAB 1 (-2)))) := by
  rw [fractionClaim]
  decide

/-- **C4, amended.**  For every pair of integers `a`, `b` with `b > 0`,
formatting the exact value `a / b` together with its source division formula
(`"a/b"` over the scope `{a, b}`) prints exactly the reduced fraction with
positive denominator and the sign carried on the numerator — `ℚ`'s canonical
`num`/`den` pair — collapsing to a plain integer string when the reduced
denominator is `1`.  (The positivity restriction is what the correction
adds: for `b < 0` the code drops the denominator's sign, see the
counterexample.) -/
theorem c4_fraction_exact_amended (ext : Ext) (a b : ℤ) (hb : 0 < b) :
    fractionClaim a b
      (formatNumberForDisplay ext (some (.fin ((a : ℚ) / (b : ℚ))))
        (some "a/b") (some (scopeAB a b))) := by
  obtain ⟨hnum, hden⟩ := ratDiv_num_den a b hb
  have hg0 : Int.gcd a b ≠ 0 := by
    intro h
    rcases Int.gcd_eq_zero_iff.mp h with ⟨_, hb0⟩
    omega
  have hgz : (0 : ℤ) < (Int.gcd a b : ℤ) := by
    exact_mod_cast Nat.pos_of_ne_zero hg0
  rw [fractionClaim]
  by_cases hd1 : ((a : ℚ) / (b : ℚ)).den = 1
  · rw [formatNumberForDisplay_finQ, if_pos hd1, if_pos hd1]
  · rw [formatNumberForDisplay_step2_some ext _ "a/b" (scopeAB a b) hd1 a b
      (tryParse_ab ext a b (by omega)), if_neg hd1]
    have hn : |a| / gcd a b * (if a < 0 then (-1 : ℤ) else 1) =
        ((a : ℚ) / (b : ℚ)).num := by
      rw [gcd, abs_ediv_mul_sign _ _ hgz Int.gcd_dvd_left, hnum]
    have hd : |b| / gcd a b = ((((a : ℚ) / (b : ℚ)).den : ℕ) : ℤ) := by
      rw [gcd, abs_of_pos hb, hden]
    rw [hn, hd]
    rw [if_neg (show ¬((((a : ℚ) / (b : ℚ)).den : ℕ) : ℤ) = 1 by omega),
      toString_int_natCast]

/-- Witness for the amended C4 at `a = 6`, `b = 4` (reduced fraction
`3/2`). -/
theorem c4_fraction_exact_amended_witness :
    (0 : ℤ) < 4 ∧
    fractionClaim 6 4
      (formatNumberForDisplay extDefault
        (some (.fin (((6 : ℤ) : ℚ) / ((4 : ℤ) : ℚ))))
        (some "a/b") (some (scopeAB 6 4))) :=
  ⟨by decide, c4_fraction_exact_amended extDefault 6 4 (by decide)⟩

/-- **C5, counterexample.**  `chainDefs` is a fully well-formed template
(every constraint non-null) whose 21 formula variables are declared against
dependency order.  Pass 2 resolves one per iteration; the 20-iteration bound
is then exhausted with `f20` still pending, and the code leaves `f20` absent
from the numeric scope (not set to the `NaN` sentinel) — the claim requires
every key to be present. -/
theorem c5_counterexample :
    ("f20", VarDef.obj { formula := some "f19+1" }) ∈ chainDefs ∧
    (generateQuestionVariables extDefault chainDefs randZero).props.get? "f20"
      = none ∧
    (generateQuestionVariables extDefault chainDefs randZero).display.get? "f20"
      = some "undefined" := by
  refine ⟨by decide, by decide, by decide⟩

/-- **C5, amended.**  For a template with unique keys, at most 20 formula
variables, and the key in question not the reserved name `__display`, every
key whose constraint is non-null is present in both the numeric scope and the
display scope after generation, and a formula key whose numeric value is the
`NaN` sentinel shows the failure marker `"NaN"` in the display scope.  (The
restrictions are what the correction adds: with more than 20 formula
variables the iteration bound can be exhausted while progress continues,
leaving keys absent — see the counterexample — and a null constraint is
skipped by pass 1.) -/
theorem c5_scope_coverage_amended (ext : Ext) (defs : VarDefs) (r : RandSrc)
    (hnodup : (StrMap.keys defs).Nodup)
    (hcount : ((defs.filter (fun p => p.2.isFormula)).map (·.1)).length ≤ 20)
    (k : String) (c : VarDef) (hk : (k, c) ∈ defs) (hc : c ≠ .null)
    (hd : k ≠ "__display") :
    k ∈ (generateQuestionVariables ext defs r).props.keys ∧
    k ∈ (generateQuestionVariables ext defs r).display.keys ∧
    (VarDef.isFormula c = true →
      (generateQuestionVariables ext defs r).props.get? k =
        some (some .nan) →
      (generateQuestionVariables ext defs r).display.get? k = some "NaN") := by
  have hqv : generateQuestionVariables ext defs r =
      ⟨(resolveFormulas ext defs 20
          ((defs.filter (fun p => p.2.isFormula)).map (·.1))
          (pass1 r defs StrMap.empty 0).1).eraseKey "__display",
        buildDisplay ext
          (resolveFormulas ext defs 20
            ((defs.filter (fun p => p.2.isFormula)).map (·.1))
            (pass1 r defs StrMap.empty 0).1) defs StrMap.empty⟩ := rfl
  set vars1 := (pass1 r defs StrMap.empty 0).1 with hv1
  set fkeys := (defs.filter (fun p => p.2.isFormula)).map (·.1) with hfk
  set vars2 := resolveFormulas ext defs 20 fkeys vars1 with hv2
  have hmem2 : k ∈ vars2.keys := by
    by_cases hform : VarDef.isFormula c = true
    · have hkf : k ∈ fkeys := by
        rw [hfk]
        exact List.mem_map.mpr ⟨(k, c), List.mem_filter.mpr ⟨hk, hform⟩, rfl⟩
      exact resolveFormulas_covers ext defs 20 fkeys vars1 hcount k hkf
    · have h1 : k ∈ vars1.keys :=
        pass1_assigns r defs StrMap.empty 0 k c hk hc (by simpa using hform)
      exact resolveFormulas_keys_mono ext defs 20 fkeys vars1 k h1
  have hdispv : (buildDisplay ext vars2 defs StrMap.empty).get? k =
      some (displayEntry ext vars2 k c) :=
    buildDisplay_get? ext vars2 defs StrMap.empty k c hnodup hk
  rw [hqv]
  refine ⟨?_, ?_, ?_⟩
  · exact StrMap.mem_keys_eraseKey_of_ne vars2 k "__display" hd hmem2
  · exact StrMap.mem_keys_of_get?_isSome _ _ (by rw [hdispv]; rfl)
  · intro hform hnan
    have hv2nan : vars2.get? k = some (some .nan) := by
      rw [← StrMap.get?_eraseKey_ne vars2 k "__display" hd]
      exact hnan
    show (buildDisplay ext vars2 defs StrMap.empty).get? k = some "NaN"
    rw [hdispv]
    cases c with
    | num v => simp [VarDef.isFormula] at hform
    | null => exact absurd rfl hc
    | obj spec =>
        have hde : displayEntry ext vars2 k (.obj spec) =
            formatNumberForDisplay ext ((vars2.get? k).getD none)
              spec.formula (some vars2) := by
          simp only [displayEntry]
          rw [if_pos hform]
        rw [hde, hv2nan]
        rfl

/-- Witness for the amended C5 at a concrete template, stream and key. -/
theorem c5_scope_coverage_amended_witness :
    (StrMap.keys demoDefs).Nodup ∧
    ((demoDefs.filter (fun p => p.2.isFormula)).map (·.1)).length ≤ 20 ∧
    ("a", VarDef.obj { min := some 2, max := some 2 }) ∈ demoDefs ∧
    ("a" : String) ≠ "__display" ∧
    ("a" ∈ (generateQuestionVariables extDefault demoDefs randZero).props.keys ∧
     "a" ∈
       (generateQuestionVariables extDefault demoDefs randZero).display.keys ∧
     (VarDef.isFormula (VarDef.obj { min := some 2, max := some 2 }) = true →
       (generateQuestionVariables extDefault demoDefs randZero).props.get? "a" =
         some (some .nan) →
       (generateQuestionVariables extDefault demoDefs randZero).display.get?
         "a" = some "NaN")) :=
  ⟨by decide, by decide, by decide, by decide,
    c5_scope_coverage_amended extDefault demoDefs randZero (by decide)
      (by decide) "a" (VarDef.obj { min := some 2, max := some 2 })
      (by decide) (by decide) (by decide)⟩

/-- **C6, counterexample.**  Template rendering can throw: a `decimal:N`
option with `N` outside `[0,100]` applied to a non-integer value reaches
`toFixed`, whose `RangeError` is caught nowhere in
`processFormattedVariables` or `processTemplateText`. -/
theorem c6_counterexample :
    processFormattedVariables extDefault "\x7bx|decimal:-1\x7d"
        [("x", some (.fin ((1 : ℚ) / 2)))] =
      .error (.rangeError "toFixed() digits argument") :=
  rfl

/-- **C8, counterexample.**  With `cexSpec` and the stream `rng49`, the first
49 draws are the excluded value 1 and the 50th draw is 2, which satisfies the
exclusion list — yet `generateVariableValue` (part_000 lines 34-56) discards
it: the `attempts >= maxAttempts` check fires even when the 50th draw was
valid, and the fallback 0 is returned instead of the drawn 2. -/
theorem c8_counterexample :
    genLoop cexSpec [] rng49 50 0 0 = (some (.fin 2), 50, 50) ∧
    validateVariableValue (some (.fin 2)) cexSpec [] = true ∧
    generateVariableValue cexSpec [] rng49 0 = (some (.fin 0), 50) ∧
    (some (JSNum.fin 0) ≠ some (JSNum.fin 2)) := by
  refine ⟨by decide, by decide, by decide, by decide⟩

/-- **C6, amended.**  (1) When every formatted placeholder the scanner matches
in the text names a variable that is absent from the scope (or holds
`undefined`), `processFormattedVariables` returns the input text character for
character, raising nothing.  (2) When the math.js evaluation of a non-literal
inline expression throws — which it does for every failing expression, via the
broken `catch` block of `evaluateMathExpression` —
`evaluateExpressionInTemplate` catches it and returns the original bracketed
text.  (The un-amended claim fails only through `toFixed`'s `RangeError`, see
the counterexample; console diagnostics are side effects outside the
embedding.) -/
theorem c6_render_error_handling_amended :
    (∀ (ext : Ext) (text : String) (vars : Scope),
      (∀ whole name opts,
        FmtPiece.ph whole name opts ∈ fmtSplit (text.length + 1) text.data →
        vars.get? name = none ∨ vars.get? name = some none) →
      processFormattedVariables ext text vars = .ok text) ∧
    (∀ (ext : Ext) (expr : String) (vars : Scope) (om : String) (e : JsErr),
      (String.mk (trimChars expr.data)).data.contains '\\' = false →
      charsHave "^\x7b".data (String.mk (trimChars expr.data)).data = false →
      evaluateMathExpressionMathjs ext (String.mk (trimChars expr.data)) vars =
        .error e →
      evaluateExpressionInTemplate ext expr vars om = om) := by
  constructor
  · intro ext text vars h
    unfold processFormattedVariables
    rw [mapM_fmtCallback_raw ext vars _ h]
    show Except.ok
      (String.mk (((fmtSplit (text.length + 1) text.data).map
        fmtPieceRaw).map String.data).flatten) = Except.ok text
    rw [List.map_map]
    have hj : (List.map (String.data ∘ fmtPieceRaw)
        (fmtSplit (text.length + 1) text.data)).flatten = text.data := by
      rw [show String.data ∘ fmtPieceRaw = fun p => (fmtPieceRaw p).data from rfl]
      exact fmtSplit_raw_join (text.length + 1) text.data
    rw [hj]
  · intro ext expr vars om e h1 h2 h3
    unfold evaluateExpressionInTemplate
    have h1' : ¬('\\' ∈ trimChars expr.data) := by simpa using h1
    simp [h1', h2, h3]

/-- Witness for C6 at concrete inputs: an absent variable's placeholder passes
through untouched, and a failing inline expression is restored. -/
theorem c6_render_error_handling_amended_witness :
    processFormattedVariables extDefault "\x7bx|sign\x7d" [] =
      .ok "\x7bx|sign\x7d" ∧
    evaluateExpressionInTemplate extDefault "1+1" [] "\x7b1+1\x7d" =
      "\x7b1+1\x7d" :=
  ⟨c6_render_error_handling_amended.1 extDefault "\x7bx|sign\x7d" []
      (fun _ _ _ _ => .inl rfl),
   c6_render_error_handling_amended.2 extDefault "1+1" [] "\x7b1+1\x7d"
      (.referenceError "processedExpression is not defined")
      (by decide) (by decide) rfl⟩

/-- **C8, amended.**  `generateVariableValue` draws at most 50 times (the
stream index advances by at most 50); a drawn value satisfying the exclusion
list within the first 49 draws is returned; otherwise — including when only
the 50th draw satisfies the exclusions, see the counterexample — the declared
default (or 0) is returned. -/
theorem c8_draw_loop_amended (spec : ConstraintSpec) (vars : Scope)
    (r : RandSrc) (i : ℕ) :
    (generateVariableValue spec vars r i).2 ≤ i + 50 ∧
    (match firstValidIdx spec vars r i 49 with
     | some j =>
         (generateVariableValue spec vars r i).1 = drawAt spec r i j ∧
         validateVariableValue (drawAt spec r i j) spec vars = true
     | none =>
         (generateVariableValue spec vars r i).1 =
           some (.fin (spec.defaultVal.getD 0))) := by
  have hchar := genLoop_char spec vars r 49 0 i (by omega)
  rcases hfv : firstValidIdx spec vars r i 49 with _ | j
  · rw [hfv] at hchar
    unfold generateVariableValue
    rw [show (50 : ℕ) = 49 + 1 from rfl, hchar]
    refine ⟨?_, ?_⟩
    · simp only []
      simp
      unfold advance
      split <;> omega
    · simp
  · rw [hfv] at hchar
    obtain ⟨hj, hval⟩ := firstValidIdx_some spec vars r 49 i j hfv
    unfold generateVariableValue
    rw [show (50 : ℕ) = 49 + 1 from rfl, hchar]
    have hnot : ¬(49 ≤ j) := by omega
    refine ⟨?_, ?_, hval⟩
    · simp only []
      simp [hnot]
      by_cases hc : drawConsumes spec <;> simp [advance, hc]
      omega
    · simp [hnot]

/-- **C10.**  The returned scope carries the display map only as the
non-enumerable `__display` property: enumerating the scope's own enumerable
keys yields exactly the keys the generator assigned (`props` of the final
object equals the scope built by `generateQuestionVariablesCore`) and never
`__display`; and `replaceTemplateVariables` builds its substitution list from
`Object.keys(...)` filtered by `k !== '__display'`, so the display map can
never be substituted as a variable. -/
theorem c10_display_not_enumerable (ext : Ext) (defs : VarDefs) (r : RandSrc)
    (h : "__display" ∉ StrMap.keys defs) :
    "__display" ∉ StrMap.keys (generateQuestionVariables ext defs r).props ∧
    (generateQuestionVariables ext defs r).props =
      (generateQuestionVariablesCore ext defs r).1 ∧
    ∀ qv : QVars, "__display" ∉ replacementKeys qv := by
  have hprops : (generateQuestionVariables ext defs r).props =
      ((generateQuestionVariablesCore ext defs r).1).eraseKey "__display" := rfl
  refine ⟨?_, ?_, ?_⟩
  · rw [hprops]
    exact StrMap.not_mem_keys_eraseKey _ _
  · rw [hprops]
    exact StrMap.eraseKey_of_not_mem _ _
      (fun hmem => h (core_keys_subset ext defs r _ hmem))
  · intro qv hmem
    rcases List.mem_filter.mp hmem with ⟨-, hne⟩
    simp at hne

/-- Witness for C10 at a concrete template. -/
theorem c10_display_not_enumerable_witness :
    "__display" ∉
      StrMap.keys (generateQuestionVariables extDefault demoDefs randZero).props ∧
    (generateQuestionVariables extDefault demoDefs randZero).props =
      (generateQuestionVariablesCore extDefault demoDefs randZero).1 ∧
    ∀ qv : QVars, "__display" ∉ replacementKeys qv :=
  c10_display_not_enumerable extDefault demoDefs randZero (by decide)

end Spec2Proof
